import Mathlib

/-!
Verification development for the x86-64 nanojit back end (NativeX64.cpp).

The definitions below are a shallow embedding of the code generator's
pure content: machine words are `Nat` with explicit reduction modulo
`2^32` / `2^64`, emitted native instructions are values of small
inductive types listed in *executed* order (the assembler writes code
backwards, so the source emits instructions in reverse of their
execution order), and external collaborators (the register allocator,
`shouldBlind`, the blind masks, `codeAlloc`) appear as parameters.
-/

namespace NX64

/-! ### Machine words -/

def W32 : Nat := 4294967296

def W64 : Nat := 18446744073709551616

def lo32 (x : Nat) : Nat := x % W32

def lo64 (x : Nat) : Nat := x % W64

/-- bitwise complement of a 32-bit value (C `~x` on `int32_t`). -/
def not32 (x : Nat) : Nat := lo32 x ^^^ 4294967295

/-- 32-bit wrapping subtraction (C `int32_t` subtraction). -/
def sub32 (a b : Nat) : Nat := (lo32 a + (W32 - lo32 b)) % W32

/-- sign extension of a 32-bit value to 64 bits. -/
def sext (x : Nat) : Nat :=
  if lo32 x < 2147483648 then lo32 x else lo32 x + (W64 - W32)

/-- `isS8` applied to a 32-bit immediate: its `int32_t` value is in [-128,127]. -/
def isS8of32 (x : Nat) : Bool :=
  decide (lo32 x < 128) || decide (W32 - 128 ≤ lo32 x)

/-- `isU32` on a 64-bit value. -/
def isU32of64 (v : Nat) : Bool := decide (lo64 v < W32)

/-- `isS32` on a 64-bit value: its `int64_t` value fits in `int32_t`. -/
def isS32of64 (v : Nat) : Bool :=
  decide (lo64 v < 2147483648) || decide (W64 - 2147483648 ≤ lo64 v)

/-! ### Registers -/

abbrev Register := Nat

def RAX : Register := 0
def RCX : Register := 1
def RDX : Register := 2
def RBX : Register := 3
def RSP : Register := 4
def RBP : Register := 5
def RSI : Register := 6
def RDI : Register := 7
def R12 : Register := 12
def R13 : Register := 13

/-- frame pointer alias (`FP` is `RBP` on x64). -/
def FP : Register := RBP

def IsGpReg (r : Register) : Prop := r < 16

def rmask (r : Register) : Nat := 2 ^ r

/-- `GpRegs`: mask of the 16 general-purpose registers. -/
def GpRegs : Nat := 65535

/-! ### C1: `asm_arith_imm_blind`

The ten blindable LIR opcodes, the pair of immediates the source
computes for each, and the execution semantics of one `op reg, imm`
instruction on a 64-bit register value (32-bit forms zero-extend
their result, as x86-64 does; 64-bit forms sign-extend the 32-bit
immediate field). -/

inductive BlindableOp
  | addi | subi | andi | ori | xori
  | addq | subq | andq | orq | xorq
deriving DecidableEq, Repr

open BlindableOp in
/-- Executing the single instruction `op rr, imm` on register value `r`
(`imm` is the 32-bit immediate field of the instruction). -/
def aluImmEval (op : BlindableOp) (r imm : Nat) : Nat :=
  match op with
  | addi => (lo32 r + lo32 imm) % W32
  | subi => (lo32 r + (W32 - lo32 imm)) % W32
  | andi => lo32 r &&& lo32 imm
  | ori  => lo32 r ||| lo32 imm
  | xori => lo32 r ^^^ lo32 imm
  | addq => (lo64 r + sext imm) % W64
  | subq => (lo64 r + (W64 - sext imm)) % W64
  | andq => lo64 r &&& sext imm
  | orq  => lo64 r ||| sext imm
  | xorq => lo64 r ^^^ sext imm

open BlindableOp in
/-- The two 32-bit immediates emitted by `asm_arith_imm_blind` for
opcode `op`, blind mask `m` and requested immediate `k`, in executed
order (the source emits them in reverse). -/
def blindImms (op : BlindableOp) (m k : Nat) : Nat × Nat :=
  match op with
  | addi | addq => (lo32 m, sub32 k m)
  | subi | subq => (lo32 m, sub32 k m)
  | andi | andq => ((lo32 k &&& lo32 m) ||| not32 m, (lo32 k &&& not32 m) ||| lo32 m)
  | ori  | orq  => (lo32 k &&& lo32 m, lo32 k &&& not32 m)
  | xori | xorq => (lo32 m, lo32 k ^^^ lo32 m)

/-- Executing the two instructions emitted by `asm_arith_imm_blind`. -/
def blindPairEval (op : BlindableOp) (m k r : Nat) : Nat :=
  aluImmEval op (aluImmEval op r (blindImms op m k).1) (blindImms op m k).2

/-! ### Shared mnemonic-level instruction type

One constructor per native instruction shape used by the claims, listed
with the operand data the corresponding emit routine takes.  Lists of
`MIns` are always in *executed* order (reverse of source emission
order). -/

/-- 32-bit xor of two register values. -/
def xor32 (a b : Nat) : Nat := lo32 a ^^^ lo32 b

/-- signed value of the low 32 bits (int32_t reading). -/
def s32val (x : Nat) : Int :=
  (lo32 x : Int) - (if lo32 x < 2147483648 then 0 else (W32 : Int))

/-- signed value of the low 64 bits (int64_t reading). -/
def s64val (x : Nat) : Int :=
  (lo64 x : Int) - (if lo64 x < 9223372036854775808 then 0 else (W64 : Int))

/-- unsigned 32-bit image of an integer (result of storing into a
32-bit register, zero-extended). -/
def toU32i (z : Int) : Nat := (z.emod 4294967296).toNat

/-- 32-bit arithmetic shift right (sarl). -/
def sar32 (x c : Nat) : Nat := lo32 (sext x >>> c)

/-- load widths distinguished by the spill-reload path. -/
inductive LoadKind
  | l32 | l64 | ldsd | ldss | ldups | ldaps
deriving DecidableEq, Repr

/-- condition codes as used by the cmov/branch macros. -/
inductive CC
  | e | ne | l | nl | g | ng | le | nle | ge | nge
  | b | nb | a | na | be | nbe | ae | nae
deriving DecidableEq, Repr

inductive MIns
  | mr (d s : Register)                      -- MR: movq d, s
  | movi (d : Register) (imm : Nat)          -- MOVI: movl d, imm32
  | movqi32 (d : Register) (imm : Nat)       -- MOVQI32: movq d, imm32 (sign-extend)
  | movqi (d : Register) (imm : Nat)         -- MOVQI: movabs d, imm64
  | learip (d : Register) (disp : Nat)       -- LEARIP
  | lealrm (d : Register) (disp : Nat) (b : Register)   -- LEALRM
  | leaqrm (d : Register) (disp : Nat) (b : Register)   -- LEAQRM
  | xorrr (d s : Register)                   -- XORRR: xorl
  | xorlri (d : Register) (imm : Nat)        -- XORLRI: xorl d, imm32
  | xorqrr (d s : Register)                  -- XORQRR: xorq
  | ldrm (k : LoadKind) (d : Register) (disp : Nat) (b : Register)  -- loads
  | movdxr (d s : Register)                  -- MOVDXR: movd xmm, gp
  | movqxr (d s : Register)                  -- MOVQXR: movq xmm, gp
  | movapsrip (d : Register) (disp : Nat)    -- MOVAPSRMRIP
  | movupsrip (d : Register) (disp : Nat)    -- MOVUPSRMRIP
  | xorps (d : Register)                     -- XORPS: xorps d, d
  | cmovn (c : CC) (d s : Register)          -- CMOVN*: inverted-cc conditional move
  | cmprr (wide : Bool) (a b : Register)     -- CMPLR / CMPQR
  | cmpri (wide : Bool) (a : Register) (imm : Nat)      -- CMPLRI / CMPQRI / *8
  | sari (d : Register) (count : Nat)        -- SARI: sarl d, count
  | idiv (b : Register)                      -- IDIV: idivl edx:eax, b
  | cdq                                      -- sign-extend eax into edx
deriving DecidableEq, Repr

/-- Does the instruction write EFLAGS?  (x86 semantics: mov/lea/loads,
cmov, cdq and the SSE moves and xorps leave EFLAGS alone; xor, cmp,
sar and idiv write it.) -/
def writesFlags : MIns → Bool
  | .xorrr _ _ => true
  | .xorlri _ _ => true
  | .xorqrr _ _ => true
  | .cmprr _ _ _ => true
  | .cmpri _ _ _ => true
  | .sari _ _ => true
  | .idiv _ => true
  | _ => false

/-- the immediate field carried by an instruction, if it has one. -/
def immOf : MIns → Option Nat
  | .movi _ imm => some imm
  | .movqi32 _ imm => some imm
  | .movqi _ imm => some imm
  | .xorlri _ imm => some imm
  | .cmpri _ _ imm => some imm
  | .sari _ c => some c
  | _ => none

def immsOf (l : List MIns) : List Nat := l.filterMap immOf

def isLearip : MIns → Bool
  | .learip _ _ => true
  | _ => false

/-! ### Machine state and execution -/

structure MState where
  regs : Register → Nat
  /-- comparison observed by a later conditional move: width and the two
  compared register values, or `none` after any other flag writer. -/
  lastCmp : Option (Bool × Nat × Nat)
  rip : Nat
  /-- memory read oracle: value returned by a load of the given kind at
  the given address. -/
  mem : LoadKind → Nat → Nat

def setReg (st : MState) (r : Register) (v : Nat) : MState :=
  { st with regs := fun x => if x = r then v else st.regs x }

def clearCmp (st : MState) : MState := { st with lastCmp := none }

def setCmp (st : MState) (w : Bool) (x y : Nat) : MState :=
  { st with lastCmp := some (w, x, y) }

def evalCC (c : CC) (w : Bool) (x y : Nat) : Bool :=
  let sx : Int := if w then s64val x else s32val x
  let sy : Int := if w then s64val y else s32val y
  let ux : Nat := if w then lo64 x else lo32 x
  let uy : Nat := if w then lo64 y else lo32 y
  match c with
  | .e => decide (ux = uy)
  | .ne => decide (ux ≠ uy)
  | .l => decide (sx < sy)
  | .nl => decide (¬ sx < sy)
  | .g => decide (sy < sx)
  | .ng => decide (¬ sy < sx)
  | .le => decide (sx ≤ sy)
  | .nle => decide (¬ sx ≤ sy)
  | .ge => decide (sy ≤ sx)
  | .nge => decide (¬ sy ≤ sx)
  | .b => decide (ux < uy)
  | .nb => decide (¬ ux < uy)
  | .a => decide (uy < ux)
  | .na => decide (¬ uy < ux)
  | .be => decide (ux ≤ uy)
  | .nbe => decide (¬ ux ≤ uy)
  | .ae => decide (uy ≤ ux)
  | .nae => decide (¬ uy ≤ ux)

def step (st : MState) : MIns → MState
  | .mr d s => setReg st d (lo64 (st.regs s))
  | .movi d imm => setReg st d (lo32 imm)
  | .movqi32 d imm => setReg st d (sext imm)
  | .movqi d imm => setReg st d (lo64 imm)
  | .learip d disp => setReg st d ((st.rip + disp) % W64)
  | .lealrm d disp b => setReg st d (lo32 (st.regs b + disp))
  | .leaqrm d disp b => setReg st d (lo64 (st.regs b + disp))
  | .xorrr d s => setReg (clearCmp st) d (xor32 (st.regs d) (st.regs s))
  | .xorlri d imm => setReg (clearCmp st) d (xor32 (st.regs d) imm)
  | .xorqrr d s => setReg (clearCmp st) d (lo64 (st.regs d) ^^^ lo64 (st.regs s))
  | .ldrm k d disp b => setReg st d (st.mem k ((st.regs b + disp) % W64))
  | .movdxr d s => setReg st d (lo32 (st.regs s))
  | .movqxr d s => setReg st d (lo64 (st.regs s))
  | .movapsrip d disp => setReg st d (st.mem .ldaps ((st.rip + disp) % W64))
  | .movupsrip d disp => setReg st d (st.mem .ldups ((st.rip + disp) % W64))
  | .xorps d => setReg st d 0
  | .cmovn c d s =>
      match st.lastCmp with
      | some (w, x, y) => if evalCC c w x y then st else setReg st d (lo64 (st.regs s))
      | none => st
  | .cmprr w a b => setCmp st w (st.regs a) (st.regs b)
  | .cmpri w a imm => setCmp st w (st.regs a) (if w then sext imm else lo32 imm)
  | .sari d c => setReg (clearCmp st) d (sar32 (st.regs d) c)
  | .idiv b =>
      let dv : Int := s64val (lo32 (st.regs RDX) * W32 + lo32 (st.regs RAX))
      let ds : Int := s32val (st.regs b)
      setReg (setReg (clearCmp st) RAX (toU32i (Int.tdiv dv ds))) RDX (toU32i (Int.tmod dv ds))
  | .cdq => setReg st RDX (sar32 (st.regs RAX) 31)

def runL (l : List MIns) (st : MState) : MState := l.foldl step st

/-! ### C2 / C10: immediate materialization (`asm_immi`, `asm_immq`, ...)

External collaborators appear as an environment: the `shouldBlind`
policy predicates (32-bit and 64-bit overloads), the process-wide blind
masks, the cursor value used by RIP-relative forms, the
`isTargetWithinS32` outcome, the registers returned by `allocTempReg`,
the constant-pool lookup, and the spill displacement from
`findMemFor`. -/

structure ImmEnv where
  sb32 : Nat → Bool
  sb64 : Nat → Bool
  m32 : Nat
  m64 : Nat
  rip : Nat
  withinS32 : Bool
  rt : Register
  tq : Register
  poolDisp : Nat
  poolAddr : Nat
  poolAligned : Bool
  poolWithin : Bool
  d : Nat

def asm_immi (env : ImmEnv) (r : Register) (v : Nat)
    (canClobberCCs blind : Bool) : List MIns :=
  if v = 0 ∧ canClobberCCs = true then
    [.xorrr r r]
  else if blind = true ∧ env.sb32 (lo32 v) = true then
    [.movi r (xor32 v env.m32), .xorlri r (lo32 env.m32)]
  else
    [.movi r (lo32 v)]

def asm_immq (env : ImmEnv) (r : Register) (v : Nat)
    (canClobberCCs blind : Bool) : List MIns :=
  if isU32of64 v = true then
    asm_immi env r (lo64 v) canClobberCCs blind
  else if isS32of64 v = true then
    if blind = true ∧ env.sb32 (lo32 v) = true then
      [.movqi32 r (xor32 v env.m32), .movqi32 env.tq (lo32 env.m32),
        .xorqrr r env.tq]
    else
      [.movqi32 r (lo32 v)]
  else if env.withinS32 = true ∧ ¬(blind = true ∧ env.sb64 (lo64 v) = true) then
    [.learip r ((lo64 v + (W64 - lo64 env.rip)) % W64)]
  else if blind = true ∧ env.sb64 (lo64 v) = true then
    [.movqi r (lo64 v ^^^ lo64 env.m64), .movqi env.tq (lo64 env.m64),
      .xorqrr r env.tq]
  else
    [.movqi r (lo64 v)]

def asm_immd (env : ImmEnv) (r : Register) (v : Nat)
    (canClobberCCs blind : Bool) : List MIns :=
  if v = 0 ∧ canClobberCCs = true then
    [.xorps r]
  else
    asm_immq env env.rt v canClobberCCs blind ++ [.movqxr r env.rt]

def asm_immf (env : ImmEnv) (r : Register) (v : Nat)
    (canClobberCCs blind : Bool) : List MIns :=
  if v = 0 ∧ canClobberCCs = true then
    [.xorps r]
  else
    asm_immi env env.rt v canClobberCCs blind ++ [.movdxr r env.rt]

def asm_immf4 (env : ImmEnv) (r : Register) (v0 v1 : Nat)
    (canClobberCCs blind : Bool) : List MIns :=
  if v0 = 0 ∧ v1 = 0 ∧ canClobberCCs = true then
    [.xorps r]
  else if v1 = 0 ∧ blind = false then
    asm_immd env r v0 canClobberCCs false
  else if env.poolWithin = true then
    if env.poolAligned = true then [.movapsrip r env.poolDisp]
    else [.movupsrip r env.poolDisp]
  else
    asm_immq env env.rt env.poolAddr canClobberCCs false ++
      (if env.poolAligned = true then [.ldrm .ldaps r 0 env.rt]
       else [.ldrm .ldups r 0 env.rt])

/-! ### C7: `canRemat` / `asm_restore`

LIR values are abstracted to the shapes `asm_restore` distinguishes. -/

inductive RVal
  | allocp
  | immi (v : Nat) (tainted : Bool)
  | immq (v : Nat) (tainted : Bool)
  | immd (v : Nat) (tainted : Bool)
  | immf (v : Nat) (tainted : Bool)
  | immf4 (v0 v1 : Nat) (tainted : Bool)
  /-- `addi` whose lhs is (possibly) in a base register and whose rhs is
  an int immediate: the `canRematLEA` candidate shape. -/
  | addiL (lhsInBase : Bool) (lhsReg : Register) (imm : Nat) (immTainted : Bool)
  /-- `addq` analogue with a quad immediate. -/
  | addqL (lhsInBase : Bool) (lhsReg : Register) (imm : Nat) (immTainted : Bool)
  | otherI | otherQ | otherD | otherF | otherF4
deriving DecidableEq, Repr

def RVal.isImmAny : RVal → Bool
  | .immi _ _ | .immq _ _ | .immd _ _ | .immf _ _ | .immf4 _ _ _ => true
  | _ => false

def RVal.isImmITaintedBlindable (sb32 : Nat → Bool) : RVal → Bool
  | .immi v t => t && sb32 (lo32 v)
  | _ => false

def RVal.isImmQTaintedBlindable (sb64 : Nat → Bool) : RVal → Bool
  | .immq v t => t && sb64 (lo64 v)
  | _ => false

def RVal.isAllocp : RVal → Bool
  | .allocp => true
  | _ => false

def canRematLEA (env : ImmEnv) : RVal → Bool
  | .addiL inBase _ imm t => inBase && !(t && env.sb32 (lo32 imm))
  | .addqL inBase _ imm t => inBase && isS32of64 imm && !(t && env.sb64 (lo64 imm))
  | _ => false

def canRemat (env : ImmEnv) (ins : RVal) : Bool :=
  (ins.isImmAny && !(ins.isImmITaintedBlindable env.sb32) &&
      !(ins.isImmQTaintedBlindable env.sb64))
    || ins.isAllocp || canRematLEA env ins

def asm_restore (env : ImmEnv) (ins : RVal) (r : Register) : List MIns :=
  match ins with
  | .allocp => [.leaqrm r env.d FP]
  | .immi v t =>
      if ¬(t = true ∧ env.sb32 (lo32 v) = true) then
        asm_immi env r v false false
      else
        [.ldrm .l32 r env.d FP]
  | .immq v t =>
      if ¬(t = true ∧ env.sb64 (lo64 v) = true) then
        asm_immq env r v false false
      else
        [.ldrm .l64 r env.d FP]
  | .immd v t =>
      if t = false then asm_immd env r v false false
      else [.ldrm .ldsd r env.d FP]
  | .immf v t =>
      if t = false then asm_immf env r v false false
      else [.ldrm .ldss r env.d FP]
  | .immf4 v0 v1 t => asm_immf4 env r v0 v1 false t
  | .addiL inBase l imm t =>
      if canRematLEA env (.addiL inBase l imm t) = true then
        [.lealrm r (lo32 imm) l]
      else
        [.ldrm .l32 r env.d FP]
  | .addqL inBase l imm t =>
      if canRematLEA env (.addqL inBase l imm t) = true then
        [.leaqrm r (lo32 imm) l]
      else
        [.ldrm .l64 r env.d FP]
  | .otherI => [.ldrm .l32 r env.d FP]
  | .otherQ => [.ldrm .l64 r env.d FP]
  | .otherD => [.ldrm .ldsd r env.d FP]
  | .otherF => [.ldrm .ldss r env.d FP]
  | .otherF4 => [.ldrm .ldups r env.d FP]

/-! ### C5: instructions executed between the compare and the cmov

In `asm_cmov` (GP path) the instructions emitted after the `cmovcc`
and before the compare produced by `asm_cmpi` are: the optional
`MR rr, rt` result move, and `asm_restore` output produced by register
evictions for the compare operands.  In executed order these sit
between the `cmp` and the `cmov`. -/

def asm_cmov_between (env : ImmEnv) (needMov : Bool) (rr rt : Register)
    (restores : List (RVal × Register)) : List MIns :=
  (restores.flatMap fun p => asm_restore env p.1 p.2) ++
    (if needMov then [.mr rr rt] else [])

/-! ### C6: `asm_div` / `asm_div_mod` -/

/-- Instructions emitted by `asm_div`, in executed order: the source
emits `IDIV rb; SARI RDX, 31; MR RDX, RAX;` and then `MR RAX, ra` when
`ra` is not already `RAX`. -/
def asm_div_code (ra rb : Register) : List MIns :=
  (if ra = RAX then [] else [.mr RAX ra]) ++
    [.mr RDX RAX, .sari RDX 31, .idiv rb]

/-- Instructions emitted by `asm_div_mod` (identical shape; the mod
result is read from RDX). -/
def asm_div_mod_code (ra rb : Register) : List MIns :=
  (if ra = RAX then [] else [.mr RAX ra]) ++
    [.mr RDX RAX, .sari RDX 31, .idiv rb]

/-- the allow mask the divisor register is drawn from:
`GpRegs & ~(rmask(RAX)|rmask(RDX))`. -/
def divisorAllow : Nat :=
  GpRegs &&& (18446744073709551615 ^^^ (rmask RAX ||| rmask RDX))

def countIdiv (l : List MIns) : Nat :=
  l.countP fun i => match i with | .idiv _ => true | _ => false

/-! ### C3: branch form selection (`asm_branch_helper`) -/

def isS8i (z : Int) : Bool := decide (-128 ≤ z ∧ z ≤ 127)

def isS32i (z : Int) : Bool := decide (-2147483648 ≤ z ∧ z ≤ 2147483647)

/-- `isTargetWithinS8` on the distance of the target from the cursor
after `underrunProtect` (returns false when `force_long_branch`). -/
def isTargetWithinS8 (force : Bool) (delta : Int) : Bool :=
  if force = true then false else isS8i delta

def isTargetWithinS32 (force : Bool) (delta : Int) : Bool :=
  if force = true then false else isS32i delta

/-- the condition opcodes reaching `asm_branch_helper`, as far as its
dispatch distinguishes them: the float/double compares are kept apart
(`isCmpDOpcode`/`isCmpFOpcode` route them to `asm_branchd_helper`,
which switches on the opcode after `getCmpDOpcode` folding); every
integer — and, per the source comment, float4 — condition takes the
integer path, whose form selection does not depend on which one it
is. -/
inductive CondOp
  | intCond
  | ltd | gtd | led | ged | eqd
  | ltf | gtf | lef | gef | eqf
deriving DecidableEq, Repr

def isCmpDOpcode : CondOp → Bool
  | .ltd | .gtd | .led | .ged | .eqd => true
  | _ => false

def isCmpFOpcode : CondOp → Bool
  | .ltf | .gtf | .lef | .gef | .eqf => true
  | _ => false

def getCmpDOpcode : CondOp → CondOp
  | .ltf => .ltd
  | .gtf => .gtd
  | .lef => .led
  | .gef => .ged
  | .eqf => .eqd
  | c => c

/-- the conditional jumps the branch helpers emit: `intCC s` stands for
the integer jcc chosen by `asm_branchi_S8`/`asm_branchi_S32` for the
sense `s` of the current integer condition. -/
inductive JccKind
  | ja | jae | jb | jbe | je | jne | jp | jnp
  | intCC (onFalse : Bool)
deriving DecidableEq, Repr

inductive BrDest
  | target | skip
deriving DecidableEq, Repr

/-- one instruction of an emitted branch pattern: a conditional jump of
2 or 6 bytes to the branch target or to the local skip label, or the
14-byte 64-bit absolute `JMP64` to the target. -/
inductive BrIns
  | jcc (cc : JccKind) (bytes : Nat) (dest : BrDest)
  | jmp64
deriving DecidableEq, Repr

/-- the unsigned jcc picked by `asm_branchd_helper`'s switches for the
non-`eqd` double compares, by opcode and branch sense (`asm_cmpd` has
already reduced `ltd` to `gtd` and `led` to `ged` by swapping the
operands, so each pair shares a case); `none` models the
`NanoAssert(0)` default. -/
def ddCC : CondOp → Bool → Option JccKind
  | .ltd, true => some .jbe
  | .ltd, false => some .ja
  | .gtd, true => some .jbe
  | .gtd, false => some .ja
  | .led, true => some .jb
  | .led, false => some .jae
  | .ged, true => some .jb
  | .ged, false => some .jae
  | _, _ => none

/-- `asm_branchd_helper` with the emitted pattern listed in executed
order (the source emits backwards, so the executed order is the
reverse of the emission order); `none` models the `NanoAssert(0)`
defaults of its switches. -/
def asm_branchd_helper (force onFalse : Bool) (condop0 : CondOp)
    (delta : Int) : Option (List BrIns) :=
  let condop := if isCmpFOpcode condop0 = true then getCmpDOpcode condop0
    else condop0
  if condop = .eqd then
    if onFalse = true then
      if isTargetWithinS32 force delta = true then
        some [.jcc .jne 6 .target, .jcc .jp 6 .target]
      else
        some [.jcc .je 2 .skip, .jmp64, .jcc .jnp 2 .skip, .jmp64]
    else
      if isTargetWithinS32 force delta = true then
        some [.jcc .jp 2 .skip, .jcc .je 6 .target]
      else
        some [.jcc .jp 2 .skip, .jcc .jne 2 .skip, .jmp64]
  else
    if isTargetWithinS32 force delta = true then
      match ddCC condop onFalse with
      | some cc => some [.jcc cc 6 .target]
      | none => none
    else
      match ddCC condop (!onFalse) with
      | some cc => some [.jcc cc 2 .skip, .jmp64]
      | none => none

/-- `asm_branch_helper` with the emitted pattern listed in executed
order: float/double compares are delegated to `asm_branchd_helper`;
integer conditions pick the 2-byte, 6-byte or
inverted-8-bit-over-`JMP64` pattern from the distance. -/
def asm_branch_helper (force onFalse : Bool) (condop : CondOp)
    (delta : Int) : Option (List BrIns) :=
  if isCmpDOpcode condop = true ∨ isCmpFOpcode condop = true then
    asm_branchd_helper force onFalse condop delta
  else
    if isTargetWithinS8 force delta = true then
      some [.jcc (.intCC onFalse) 2 .target]
    else if isTargetWithinS32 force delta = true then
      some [.jcc (.intCC onFalse) 6 .target]
    else
      some [.jcc (.intCC (!onFalse)) 2 .skip, .jmp64]

/-! ### C4: `emit_target32` and `nPatchBranch` -/

inductive AsmErr
  | branchTooFar | unknownPatch
deriving DecidableEq, Repr

structure EmitState where
  nIns : Int
  emitted : List Nat
  err : Option AsmErr
deriving DecidableEq, Repr

def setError (st : EmitState) (e : AsmErr) : EmitState := { st with err := some e }

def toU32int (z : Int) : Nat := (z.emod 4294967296).toNat

def toU64int (z : Int) : Nat := (z.emod 18446744073709551616).toNat

def oplen (op : Nat) : Nat := op % 256

/-- `emit`: write the 8-byte word and move the cursor back by the
encoded length (`underrunProtect` is modelled in C8 separately). -/
def emit_op (st : EmitState) (op : Nat) : EmitState :=
  { st with emitted := op :: st.emitted, nIns := st.nIns - (oplen op : Int) }

/-- `emit_target32`: offset from the successor instruction; a target
further than a signed 32-bit offset sets BranchTooFar, and the
instruction is then still emitted with the truncated offset. -/
def emit_target32 (st : EmitState) (op : Nat) (target : Option Int) :
    EmitState :=
  let offset : Int := match target with | some t => t - st.nIns | none => 0
  let st1 := if isS32i offset = true then st else setError st .branchTooFar
  emit_op st1 (op ||| (toU32int offset) <<< 32)

def bytesOfU32 (v : Nat) : List Nat :=
  [v % 256, v / 256 % 256, v / 65536 % 256, v / 16777216 % 256]

def bytesOfU64 (v : Nat) : List Nat :=
  bytesOfU32 (v % 4294967296) ++ bytesOfU32 (v / 4294967296)

def writeAt : List Nat → Nat → List Nat → List Nat
  | m, _, [] => m
  | [], _, _ => []
  | _ :: m, 0, b :: bs => b :: writeAt m 0 bs
  | x :: m, p + 1, bs => x :: writeAt m p bs

/-- `nPatchBranch` on the bytes at the patch site: recognizes
`jmp disp32` (E9), `jcc disp32` (0F 8x) and the 8-byte absolute slot of
`jmp [rip+0]` (FF 25); a disp32 site whose new target is out of signed
32-bit reach sets BranchTooFar and leaves the bytes unchanged. -/
def nPatchBranch (mem : List Nat) (paddr target : Int) :
    List Nat × Option AsmErr :=
  match mem with
  | 233 :: _ =>
      let next := paddr + 5
      if isS32i (target - next) = true then
        (writeAt mem 1 (bytesOfU32 (toU32int (target - next))), none)
      else
        (mem, some .branchTooFar)
  | 15 :: b1 :: _ =>
      if b1 &&& 240 = 128 then
        let next := paddr + 6
        if isS32i (target - next) = true then
          (writeAt mem 2 (bytesOfU32 (toU32int (target - next))), none)
        else
          (mem, some .branchTooFar)
      else
        (mem, some .unknownPatch)
  | 255 :: 37 :: _ =>
      (writeAt mem 6 (bytesOfU64 (toU64int target)), none)
  | _ => (mem, some .unknownPatch)

/-! ### C8: `underrunProtect` and the 8-byte write margin of `emit`

`codeAlloc` is an external collaborator: a fresh chunk
`[chunkStart, chunkEnd)` with the cursor placed at its end.  The jump
emitted from the new chunk to the old cursor occupies `jmpLen` bytes
(2, 5 or 14 depending on reach; at most 16 including the 64-bit
target word). -/

structure CodeState where
  codeStart : Int
  nIns : Int
  /-- bridge jumps emitted on chunk switches: (jump site, target). -/
  bridges : List (Int × Int)
deriving DecidableEq, Repr

def underrunProtect (chunkStart chunkEnd jmpLen : Int) (bytes : Int)
    (st : CodeState) : CodeState :=
  if st.nIns - bytes < st.codeStart then
    { codeStart := chunkStart, nIns := chunkEnd - jmpLen,
      bridges := (chunkEnd - jmpLen, st.nIns) :: st.bridges }
  else
    st

/-- `emit`: protect 8 bytes, store 8 bytes ending at the cursor, move
the cursor back by the instruction length.  Returns the new state and
the written interval. -/
def emit_write (chunkStart chunkEnd jmpLen : Int) (len : Nat)
    (st : CodeState) : CodeState × (Int × Int) :=
  let st1 := underrunProtect chunkStart chunkEnd jmpLen 8 st
  ({ st1 with nIns := st1.nIns - (len : Int) }, (st1.nIns - 8, st1.nIns))

/-! ### C9: `mod_disp32` -/

def toU8int (z : Int) : Nat := (z.emod 256).toNat

def isS8int (d : Int) : Bool := decide (-128 ≤ d ∧ d ≤ 127)

/-- `mod_disp32(op, r, b, d)`: `none` models an assertion failure.  The
asserts in the source are `IsGpReg(r) && IsGpReg(b)` and
`(REGNUM(b) & 7) != 4`. -/
def mod_disp32 (op : Nat) (r b : Register) (d : Int) : Option Nat :=
  if ¬(r < 16 ∧ b < 16) then none
  else if b % 8 = 4 then none
  else
    let md := ((op >>> 24) % 256) >>> 6
    if md = 2 ∧ isS8int d = true then
      let len := oplen op
      let op2 := (op &&& 18446744069431361535) |||
        ((64 ||| ((r % 8) <<< 3) ||| (b % 8)) <<< 24)
      some (((op2 <<< 24) % W64) ||| ((toU8int d) <<< 56) ||| (len - 3))
    else
      some (op ||| ((toU32int d) <<< 32) ||| ((((r % 8) <<< 3) ||| (b % 8)) <<< 24))

end NX64

namespace NX64

/-! ### Word-level lemmas -/

theorem W32_eq : W32 = 2 ^ 32 := by norm_num [W32]

theorem W64_eq : W64 = 2 ^ 64 := by norm_num [W64]

theorem lo32_lt (x : Nat) : lo32 x < W32 := Nat.mod_lt _ (by norm_num [W32])

theorem testBit_lo32 (x i : Nat) :
    (lo32 x).testBit i = (decide (i < 32) && x.testBit i) := by
  rw [lo32, W32_eq, Nat.testBit_mod_two_pow]

theorem testBit_lo64 (x i : Nat) :
    (lo64 x).testBit i = (decide (i < 64) && x.testBit i) := by
  rw [lo64, W64_eq, Nat.testBit_mod_two_pow]

theorem testBit_not32 (x i : Nat) :
    (not32 x).testBit i = (decide (i < 32) && !(x.testBit i)) := by
  have h : (4294967295 : Nat) = 2 ^ 32 - 1 := by norm_num
  rw [not32, h]
  simp only [Nat.testBit_xor, testBit_lo32, Nat.testBit_two_pow_sub_one]
  cases hd : decide (i < 32) <;> cases hx : x.testBit i <;> rfl

theorem testBit_sext (x i : Nat) :
    (sext x).testBit i =
      (if i < 32 then x.testBit i else (decide (i < 64) && x.testBit 31)) := by
  have h31 : x.testBit 31 = (lo32 x).testBit 31 := by
    simp [testBit_lo32]
  by_cases hs : lo32 x < 2147483648
  · rw [sext, if_pos hs]
    by_cases hi : i < 32
    · simp [testBit_lo32, hi]
    · have hx : lo32 x < 2 ^ i := by
        calc lo32 x < W32 := lo32_lt x
        _ = 2 ^ 32 := W32_eq
        _ ≤ 2 ^ i := Nat.pow_le_pow_right (by norm_num) (by omega)
      rw [Nat.testBit_lt_two_pow hx, if_neg hi]
      have hb : (lo32 x).testBit 31 = false :=
        Nat.testBit_lt_two_pow (by norm_num at hs ⊢; omega)
      rw [h31, hb, Bool.and_false]
  · rw [sext, if_neg hs]
    have hrw : lo32 x + (W64 - W32) = 2 ^ 32 * (2 ^ 32 - 1) + lo32 x := by
      norm_num [W64, W32]; omega
    have hlt : lo32 x < 2 ^ 32 := by rw [← W32_eq]; exact lo32_lt x
    rw [hrw, Nat.testBit_mul_pow_two_add _ hlt]
    by_cases hi : i < 32
    · simp [hi, testBit_lo32]
    · rw [if_neg hi, if_neg hi, Nat.testBit_two_pow_sub_one]
      have hd : decide (i - 32 < 32) = decide (i < 64) :=
        decide_eq_decide.mpr (by omega)
      have hb : (lo32 x).testBit 31 = true := by
        rw [Nat.testBit_to_div_mod]
        have := lo32_lt x
        rw [W32_eq] at this
        norm_num at hs ⊢
        omega
      rw [hd, h31, hb, Bool.and_true]

theorem sext_land (a b : Nat) : sext a &&& sext b = sext (lo32 a &&& lo32 b) := by
  apply Nat.eq_of_testBit_eq
  intro i
  by_cases hi : i < 32
  · simp [Nat.testBit_land, testBit_sext, testBit_lo32, hi]
  · simp only [Nat.testBit_land, testBit_sext, testBit_lo32, if_neg hi]
    cases hd : decide (i < 64) <;>
      cases ha : a.testBit 31 <;> cases hb : b.testBit 31 <;> simp

theorem sext_lor (a b : Nat) : sext a ||| sext b = sext (lo32 a ||| lo32 b) := by
  apply Nat.eq_of_testBit_eq
  intro i
  by_cases hi : i < 32
  · simp [Nat.testBit_lor, testBit_sext, testBit_lo32, hi]
  · simp only [Nat.testBit_lor, testBit_sext, testBit_lo32, if_neg hi]
    cases hd : decide (i < 64) <;>
      cases ha : a.testBit 31 <;> cases hb : b.testBit 31 <;> simp

theorem sext_xor (a b : Nat) : sext a ^^^ sext b = sext (lo32 a ^^^ lo32 b) := by
  apply Nat.eq_of_testBit_eq
  intro i
  by_cases hi : i < 32
  · simp [Nat.testBit_xor, testBit_sext, testBit_lo32, hi]
  · simp only [Nat.testBit_xor, testBit_sext, testBit_lo32, if_neg hi]
    cases hd : decide (i < 64) <;>
      cases ha : a.testBit 31 <;> cases hb : b.testBit 31 <;> simp

end NX64

namespace NX64

/-! ### C1 helper lemmas: the blinded pair recomputes the original op -/

theorem lo32_lo32 (x : Nat) : lo32 (lo32 x) = lo32 x := by
  simp [lo32, Nat.mod_mod_of_dvd]

theorem sext_lo32 (x : Nat) : sext (lo32 x) = sext x := by
  rw [sext, sext, lo32_lo32]

theorem bp_addi (m k r : Nat) : blindPairEval .addi m k r = aluImmEval .addi r k := by
  simp only [blindPairEval, blindImms, aluImmEval, sub32, lo32, W32]
  omega

theorem bp_subi (m k r : Nat) : blindPairEval .subi m k r = aluImmEval .subi r k := by
  simp only [blindPairEval, blindImms, aluImmEval, sub32, lo32, W32]
  omega

theorem bp_andi (m k r : Nat) : blindPairEval .andi m k r = aluImmEval .andi r k := by
  apply Nat.eq_of_testBit_eq
  intro i
  by_cases hi : i < 32 <;>
    simp [blindPairEval, blindImms, aluImmEval, Nat.testBit_land,
      Nat.testBit_lor, testBit_lo32, testBit_not32, hi] <;>
    cases hr : r.testBit i <;> cases hk : k.testBit i <;>
    cases hm : m.testBit i <;> simp

theorem bp_ori (m k r : Nat) : blindPairEval .ori m k r = aluImmEval .ori r k := by
  apply Nat.eq_of_testBit_eq
  intro i
  by_cases hi : i < 32 <;>
    simp [blindPairEval, blindImms, aluImmEval, Nat.testBit_land,
      Nat.testBit_lor, testBit_lo32, testBit_not32, hi] <;>
    cases hr : r.testBit i <;> cases hk : k.testBit i <;>
    cases hm : m.testBit i <;> simp

theorem bp_xori (m k r : Nat) : blindPairEval .xori m k r = aluImmEval .xori r k := by
  apply Nat.eq_of_testBit_eq
  intro i
  by_cases hi : i < 32 <;>
    simp [blindPairEval, blindImms, aluImmEval, Nat.testBit_xor,
      testBit_lo32, hi] <;>
    cases hr : r.testBit i <;> cases hk : k.testBit i <;>
    cases hm : m.testBit i <;> simp

theorem imms_and32 (m k : Nat) :
    lo32 ((lo32 k &&& lo32 m) ||| not32 m) &&& lo32 ((lo32 k &&& not32 m) ||| lo32 m) =
      lo32 k := by
  apply Nat.eq_of_testBit_eq
  intro i
  by_cases hi : i < 32 <;>
    simp [Nat.testBit_land, Nat.testBit_lor, testBit_lo32, testBit_not32, hi] <;>
    cases hk : k.testBit i <;> cases hm : m.testBit i <;> simp

theorem imms_or32 (m k : Nat) :
    lo32 (lo32 k &&& lo32 m) ||| lo32 (lo32 k &&& not32 m) = lo32 k := by
  apply Nat.eq_of_testBit_eq
  intro i
  by_cases hi : i < 32 <;>
    simp [Nat.testBit_land, Nat.testBit_lor, testBit_lo32, testBit_not32, hi] <;>
    cases hk : k.testBit i <;> cases hm : m.testBit i <;> simp

theorem imms_xor32 (m k : Nat) :
    lo32 (lo32 m) ^^^ lo32 (lo32 k ^^^ lo32 m) = lo32 k := by
  apply Nat.eq_of_testBit_eq
  intro i
  by_cases hi : i < 32 <;>
    simp [Nat.testBit_xor, testBit_lo32, hi] <;>
    cases hk : k.testBit i <;> cases hm : m.testBit i <;> simp

theorem lo64_land_sext (r i1 : Nat) :
    lo64 (lo64 r &&& sext i1) = lo64 r &&& sext i1 := by
  apply Nat.eq_of_testBit_eq
  intro i
  by_cases hj : i < 32
  · have hi : i < 64 := by omega
    simp [testBit_lo64, Nat.testBit_land, testBit_sext, hi, hj]
  · by_cases hi : i < 64 <;>
      simp [testBit_lo64, Nat.testBit_land, testBit_sext, hi, hj]

theorem lo64_lor_sext (r i1 : Nat) :
    lo64 (lo64 r ||| sext i1) = lo64 r ||| sext i1 := by
  apply Nat.eq_of_testBit_eq
  intro i
  by_cases hj : i < 32
  · have hi : i < 64 := by omega
    simp [testBit_lo64, Nat.testBit_lor, testBit_sext, hi, hj]
  · by_cases hi : i < 64 <;>
      simp [testBit_lo64, Nat.testBit_lor, testBit_sext, hi, hj]

theorem lo64_xor_sext (r i1 : Nat) :
    lo64 (lo64 r ^^^ sext i1) = lo64 r ^^^ sext i1 := by
  apply Nat.eq_of_testBit_eq
  intro i
  by_cases hj : i < 32
  · have hi : i < 64 := by omega
    simp [testBit_lo64, Nat.testBit_xor, testBit_sext, hi, hj]
  · by_cases hi : i < 64 <;>
      simp [testBit_lo64, Nat.testBit_xor, testBit_sext, hi, hj]

theorem bp_andq (m k r : Nat) : blindPairEval .andq m k r = aluImmEval .andq r k := by
  have h1 : blindPairEval .andq m k r =
      lo64 (lo64 r &&& sext ((lo32 k &&& lo32 m) ||| not32 m)) &&&
        sext ((lo32 k &&& not32 m) ||| lo32 m) := rfl
  rw [h1, lo64_land_sext, Nat.land_assoc, sext_land, imms_and32, sext_lo32]
  rfl

theorem bp_orq (m k r : Nat) : blindPairEval .orq m k r = aluImmEval .orq r k := by
  have h1 : blindPairEval .orq m k r =
      lo64 (lo64 r ||| sext (lo32 k &&& lo32 m)) |||
        sext (lo32 k &&& not32 m) := rfl
  rw [h1, lo64_lor_sext, Nat.lor_assoc, sext_lor, imms_or32, sext_lo32]
  rfl

theorem bp_xorq (m k r : Nat) : blindPairEval .xorq m k r = aluImmEval .xorq r k := by
  have h1 : blindPairEval .xorq m k r =
      lo64 (lo64 r ^^^ sext (lo32 m)) ^^^ sext (lo32 k ^^^ lo32 m) := rfl
  rw [h1, lo64_xor_sext, Nat.xor_assoc, sext_xor, imms_xor32, sext_lo32]
  rfl

theorem bp_addq_mod (m k r : Nat) :
    blindPairEval .addq m k r % W32 = aluImmEval .addq r k % W32 := by
  simp only [blindPairEval, blindImms, aluImmEval, sext, sub32, lo32, lo64,
    W32, W64]
  split_ifs <;> omega

theorem bp_subq_mod (m k r : Nat) :
    blindPairEval .subq m k r % W32 = aluImmEval .subq r k % W32 := by
  simp only [blindPairEval, blindImms, aluImmEval, sext, sub32, lo32, lo64,
    W32, W64]
  split_ifs <;> omega

end NX64

namespace NX64

/-! ### C1 exposure helper lemmas -/

theorem land_not32_self (m : Nat) : lo32 m &&& not32 m = 0 := by
  apply Nat.eq_of_testBit_eq
  intro i
  by_cases hi : i < 32 <;>
    simp [Nat.testBit_land, testBit_lo32, testBit_not32, hi]

theorem sub32_eq_imp (m k : Nat) (h : sub32 k m = lo32 k) : lo32 m = 0 := by
  simp only [sub32, lo32, W32] at h ⊢
  omega

theorem xor32_eq_imp (m k : Nat) (h : lo32 k ^^^ lo32 m = lo32 k) : lo32 m = 0 := by
  have h2 : lo32 m = lo32 k ^^^ (lo32 k ^^^ lo32 m) := by
    rw [← Nat.xor_assoc, Nat.xor_self, Nat.zero_xor]
  rw [h2, h, Nat.xor_self]

theorem testBit_allones (j : Nat) : Nat.testBit 4294967295 j = decide (j < 32) := by
  have h : (4294967295 : Nat) = 2 ^ 32 - 1 := by norm_num
  rw [h, Nat.testBit_two_pow_sub_one]

theorem and_expose1 (m k : Nat) :
    not32 m &&& (((lo32 k &&& lo32 m) ||| not32 m) ^^^ 4294967295) = 0 := by
  apply Nat.eq_of_testBit_eq
  intro i
  by_cases hi : i < 32 <;>
    simp [Nat.testBit_land, Nat.testBit_lor, Nat.testBit_xor, testBit_lo32,
      testBit_not32, testBit_allones, hi] <;>
    cases hk : k.testBit i <;> cases hm : m.testBit i <;> simp

theorem and_expose2 (m k : Nat) :
    m &&& (((lo32 k &&& not32 m) ||| lo32 m) ^^^ 4294967295) = 0 := by
  apply Nat.eq_of_testBit_eq
  intro i
  by_cases hi : i < 32 <;>
    simp [Nat.testBit_land, Nat.testBit_lor, Nat.testBit_xor, testBit_lo32,
      testBit_not32, testBit_allones, hi] <;>
    cases hk : k.testBit i <;> cases hm : m.testBit i <;> simp

/-! ### C1 claim theorems -/

/-- C1 counterexample.  The claim states that for every blindable opcode and
every non-8-bit 32-bit immediate `k`, the pair emitted by
`asm_arith_imm_blind` computes the same result as the single `op r, k` and
that neither emitted immediate equals `k`.  Both parts fail on the code:
with blind mask `0x80000000`, the 64-bit `addq` pair applied to `k = 0x100`
on initial register value 0 differs from `addq r, 0x100` (the 32-bit
subtraction `k - mask` wraps, and the two sign-extended immediates carry the
wrap into the upper 32 bits), and with mask `0xFFF` the `ori` pair for
`k = 0x100` emits `k & mask = 0x100 = k` itself as its first immediate. -/
theorem c1_blind_arith_counterexample :
    isS8of32 256 = false ∧
    blindPairEval .addq 2147483648 256 0 ≠ aluImmEval .addq 0 256 ∧
    (blindImms .ori 4095 256).1 = 256 :=
  ⟨by decide, by decide, by decide⟩

/-- C1 (amended).  For every blind mask `m`, non-8-bit immediate `k` and
initial register value `r`: the pair emitted by `asm_arith_imm_blind`
computes exactly `op r, k` for the five 32-bit opcodes and for the 64-bit
bitwise opcodes `andq`, `orq`, `xorq`; for `addq` and `subq` it agrees with
`op r, k` modulo `2^32` (the upper 32 bits may differ when the 32-bit
subtraction `k - m` wraps).  Neither emitted immediate equals `k` under the
following non-degeneracy side conditions: for add/sub/xor forms, when
`m ∉ {0, k}`; for the or forms, when `k` has a bit inside `m` and a bit
outside `m`; for the and forms, when some bit lies outside both `m` and `k`
and some bit of `m` lies outside `k`. -/
theorem c1_blind_arith_amended (m k r : Nat) (hm : m < W32) (hk : k < W32)
    (hr : r < W64) (h8 : isS8of32 k = false) :
    (∀ op : BlindableOp, op ≠ .addq → op ≠ .subq →
        blindPairEval op m k r = aluImmEval op r k)
    ∧ (∀ op : BlindableOp,
        blindPairEval op m k r % W32 = aluImmEval op r k % W32)
    ∧ (∀ op : BlindableOp,
        (op = .addi ∨ op = .subi ∨ op = .xori ∨ op = .addq ∨ op = .subq ∨
          op = .xorq) → m ≠ 0 → m ≠ k →
        (blindImms op m k).1 ≠ k ∧ (blindImms op m k).2 ≠ k)
    ∧ (∀ op : BlindableOp, (op = .ori ∨ op = .orq) →
        k &&& m ≠ 0 → k &&& not32 m ≠ 0 →
        (blindImms op m k).1 ≠ k ∧ (blindImms op m k).2 ≠ k)
    ∧ (∀ op : BlindableOp, (op = .andi ∨ op = .andq) →
        not32 m &&& not32 k ≠ 0 → m &&& not32 k ≠ 0 →
        (blindImms op m k).1 ≠ k ∧ (blindImms op m k).2 ≠ k) := by
  have em : lo32 m = m := Nat.mod_eq_of_lt hm
  have ek : lo32 k = k := Nat.mod_eq_of_lt hk
  refine ⟨?_, ?_, ?_, ?_, ?_⟩
  · intro op h1 h2
    cases op
    · exact bp_addi m k r
    · exact bp_subi m k r
    · exact bp_andi m k r
    · exact bp_ori m k r
    · exact bp_xori m k r
    · exact absurd rfl h1
    · exact absurd rfl h2
    · exact bp_andq m k r
    · exact bp_orq m k r
    · exact bp_xorq m k r
  · intro op
    cases op
    · rw [bp_addi]
    · rw [bp_subi]
    · rw [bp_andi]
    · rw [bp_ori]
    · rw [bp_xori]
    · exact bp_addq_mod m k r
    · exact bp_subq_mod m k r
    · rw [bp_andq]
    · rw [bp_orq]
    · rw [bp_xorq]
  · intro op hop hm0 hmk
    have hsub : sub32 k m ≠ k := by
      intro h
      apply hm0
      rw [← em]
      exact sub32_eq_imp m k (by rw [h, ek])
    have hxor : lo32 k ^^^ lo32 m ≠ k := by
      intro h
      apply hm0
      rw [← em]
      exact xor32_eq_imp m k (by rw [h, ek])
    have h1 : lo32 m ≠ k := by rw [em]; exact fun h => hmk h
    rcases hop with rfl | rfl | rfl | rfl | rfl | rfl <;>
      exact ⟨h1, by first | exact hsub | exact hxor⟩
  · intro op hop ha hb
    have hz : m &&& not32 m = 0 := by
      have h0 := land_not32_self m
      rw [em] at h0
      exact h0
    have h1 : lo32 k &&& lo32 m ≠ k := by
      intro h
      apply hb
      rw [← h, Nat.land_assoc, land_not32_self m]
      simp
    have h2 : lo32 k &&& not32 m ≠ k := by
      intro h
      apply ha
      rw [← h, Nat.land_assoc, Nat.land_comm (not32 m) m, hz]
      simp
    rcases hop with rfl | rfl <;> exact ⟨h1, h2⟩
  · intro op hop ha hb
    have h1 : (lo32 k &&& lo32 m) ||| not32 m ≠ k := by
      intro h
      apply ha
      have hnk : not32 k = ((lo32 k &&& lo32 m) ||| not32 m) ^^^ 4294967295 := by
        rw [not32]
        exact congrArg (fun z => z ^^^ 4294967295) (ek.trans h.symm)
      rw [hnk]
      exact and_expose1 m k
    have h2 : (lo32 k &&& not32 m) ||| lo32 m ≠ k := by
      intro h
      apply hb
      have hnk : not32 k = ((lo32 k &&& not32 m) ||| lo32 m) ^^^ 4294967295 := by
        rw [not32]
        exact congrArg (fun z => z ^^^ 4294967295) (ek.trans h.symm)
      rw [hnk]
      exact and_expose2 m k
    rcases hop with rfl | rfl <;> exact ⟨h1, h2⟩

/-- C1 witness: the amended theorem applied at the concrete mask
`0xAAAAAAAA`, immediate `0x100`, register value 7. -/
theorem c1_blind_arith_amended_witness :
    blindPairEval .xori 2863311530 256 7 = aluImmEval .xori 7 256 ∧
    (blindImms .addi 2863311530 256).1 ≠ 256 := by
  have h := c1_blind_arith_amended 2863311530 256 7 (by decide) (by decide)
    (by decide) (by decide)
  exact ⟨h.1 .xori (by decide) (by decide),
    (h.2.2.1 .addi (Or.inl rfl) (by decide) (by decide)).1⟩

end NX64

namespace NX64

/-! ### Run-semantics helper lemmas -/

theorem setReg_self (st : MState) (r : Register) (v : Nat) :
    (setReg st r v).regs r = v := by
  simp [setReg]

theorem setReg_ne (st : MState) (r : Register) (v : Nat) (x : Register)
    (h : x ≠ r) : (setReg st r v).regs x = st.regs x := by
  simp [setReg, h]

theorem xor32_lt (a b : Nat) : xor32 a b < W32 := by
  rw [xor32, W32_eq]
  exact Nat.xor_lt_two_pow (W32_eq ▸ lo32_lt a) (W32_eq ▸ lo32_lt b)

theorem lo32_xor32 (a b : Nat) : lo32 (xor32 a b) = xor32 a b :=
  Nat.mod_eq_of_lt (xor32_lt a b)

theorem xor32_cancel (v m : Nat) : xor32 (xor32 v m) m = lo32 v := by
  rw [xor32, lo32_xor32, xor32, Nat.xor_assoc, Nat.xor_self, Nat.xor_zero]

theorem lo64_lt (x : Nat) : lo64 x < W64 := Nat.mod_lt _ (by norm_num [W64])

theorem lo64_lo64 (x : Nat) : lo64 (lo64 x) = lo64 x := by
  simp [lo64, Nat.mod_mod_of_dvd]

theorem lo32_lo64 (x : Nat) : lo32 (lo64 x) = lo32 x := by
  apply Nat.mod_mod_of_dvd
  norm_num [W32, W64]

theorem sext_lt (x : Nat) : sext x < W64 := by
  have h := lo32_lt x
  rw [sext]
  split_ifs <;> simp [W64, W32] at h ⊢ <;> omega

theorem lo64_sext (x : Nat) : lo64 (sext x) = sext x :=
  Nat.mod_eq_of_lt (sext_lt x)

theorem sext_lo64 (x : Nat) : sext (lo64 x) = sext x := by
  rw [sext, sext, lo32_lo64]

theorem sext_of_S32 (v : Nat) (hv : v < W64) (h : isS32of64 v = true) :
    sext v = v := by
  rw [isS32of64] at h
  have hv64 : lo64 v = v := Nat.mod_eq_of_lt hv
  rw [hv64] at h
  simp only [Bool.or_eq_true, decide_eq_true_eq] at h
  rw [sext]
  simp only [lo32, W32, W64] at h hv ⊢
  split_ifs <;> omega

theorem xor64_lt (a b : Nat) : lo64 a ^^^ lo64 b < W64 := by
  rw [W64_eq]
  exact Nat.xor_lt_two_pow (W64_eq ▸ lo64_lt a) (W64_eq ▸ lo64_lt b)

theorem lo64_xor64 (a b : Nat) : lo64 (lo64 a ^^^ lo64 b) = lo64 a ^^^ lo64 b :=
  Nat.mod_eq_of_lt (xor64_lt a b)

/-! ### C2 helper lemmas: value correctness of immediate materialization -/

theorem asm_immi_value (env : ImmEnv) (r : Register) (v : Nat)
    (ccs blind : Bool) (st : MState) (hv : v < W32) :
    (runL (asm_immi env r v ccs blind) st).regs r = v := by
  have hlo : lo32 v = v := Nat.mod_eq_of_lt hv
  rw [asm_immi]
  split_ifs with h1 h2
  · simp only [runL, List.foldl, step]
    rw [setReg_self, xor32, Nat.xor_self, h1.1]
  · simp only [runL, List.foldl, step]
    rw [setReg_self, setReg_self, lo32_xor32, xor32, lo32_xor32, lo32_lo32,
      xor32, Nat.xor_assoc, Nat.xor_self, Nat.xor_zero, hlo]
  · simp only [runL, List.foldl, step]
    rw [setReg_self, lo32_lo32, hlo]

theorem asm_immq_value (env : ImmEnv) (r : Register) (v : Nat)
    (ccs blind : Bool) (st : MState) (hv : v < W64) (ht : env.tq ≠ r)
    (hrip : st.rip = env.rip) :
    (runL (asm_immq env r v ccs blind) st).regs r = v := by
  have hv64 : lo64 v = v := Nat.mod_eq_of_lt hv
  rw [asm_immq]
  split_ifs with h1 h2 h3 h4 h5
  · rw [hv64]
    apply asm_immi_value
    rw [isU32of64, hv64] at h1
    exact of_decide_eq_true h1
  · have hne : r ≠ env.tq := fun hc => ht hc.symm
    simp only [runL, List.foldl, step, clearCmp]
    simp only [setReg_self]
    rw [setReg_ne _ _ _ _ hne]
    simp only [setReg_self]
    rw [lo64_sext, lo64_sext, sext_xor, lo32_lo32]
    rw [lo32_xor32, xor32, Nat.xor_assoc, Nat.xor_self, Nat.xor_zero]
    rw [sext_lo32, sext_of_S32 v hv h2]
  · simp only [runL, List.foldl, step]
    rw [setReg_self, sext_lo32, sext_of_S32 v hv h2]
  · simp only [runL, List.foldl, step]
    rw [setReg_self, hrip, hv64]
    simp only [lo64, W64] at hv ⊢
    omega
  · have hne : r ≠ env.tq := fun hc => ht hc.symm
    simp only [runL, List.foldl, step, clearCmp]
    simp only [setReg_self]
    rw [setReg_ne _ _ _ _ hne]
    simp only [setReg_self]
    rw [lo64_xor64, lo64_xor64, lo64_lo64, lo64_lo64, Nat.xor_assoc,
      Nat.xor_self, Nat.xor_zero, hv64]
  · simp only [runL, List.foldl, step]
    rw [setReg_self, lo64_lo64, hv64]

end NX64

namespace NX64

/-! ### C2 exposure helper lemmas -/

theorem xor_eq_left {a b : Nat} (h : a ^^^ b = a) : b = 0 := by
  have h2 : a ^^^ (a ^^^ b) = a ^^^ a := congrArg (a ^^^ ·) h
  rwa [← Nat.xor_assoc, Nat.xor_self, Nat.zero_xor] at h2

theorem immi_noexpose (env : ImmEnv) (r : Register) (v : Nat) (ccs : Bool)
    (hv : v < W32) (hsb : env.sb32 (lo32 v) = true)
    (hm0 : lo32 env.m32 ≠ 0) (hmv : lo32 env.m32 ≠ v) :
    v ∉ immsOf (asm_immi env r v ccs true) := by
  have hlo : lo32 v = v := Nat.mod_eq_of_lt hv
  rw [asm_immi]
  split_ifs with h1 h2
  · simp [immsOf, immOf]
  · simp only [immsOf, List.filterMap_cons, List.filterMap_nil, immOf]
    intro hmem
    simp only [List.mem_cons, List.not_mem_nil, or_false] at hmem
    rcases hmem with hA | hB
    · apply hm0
      apply xor_eq_left (a := lo32 v)
      rw [← xor32, hlo, ← hA]
    · exact hmv hB.symm
  · exact absurd ⟨rfl, hsb⟩ h2

theorem immq_noexpose (env : ImmEnv) (r : Register) (v : Nat) (ccs : Bool)
    (hv : v < W64) (hsb32 : env.sb32 (lo32 v) = true)
    (hsb64 : env.sb64 (lo64 v) = true) (hm0 : lo32 env.m32 ≠ 0)
    (hmv : lo32 env.m32 ≠ lo32 v) (hM0 : lo64 env.m64 ≠ 0)
    (hMv : lo64 env.m64 ≠ v) :
    v ∉ immsOf (asm_immq env r v ccs true) := by
  have hv64 : lo64 v = v := Nat.mod_eq_of_lt hv
  rw [asm_immq]
  split_ifs with h1 h2 h3 h4 h5
  · rw [hv64]
    have hvW : v < W32 := by
      rw [isU32of64, hv64] at h1
      exact of_decide_eq_true h1
    have hlo : lo32 v = v := Nat.mod_eq_of_lt hvW
    exact immi_noexpose env r v ccs hvW hsb32 hm0 (hlo ▸ hmv)
  · have hge : W32 ≤ v := by
      rw [isU32of64, hv64] at h1
      simp only [decide_eq_true_eq] at h1
      omega
    simp only [immsOf, List.filterMap_cons, List.filterMap_nil, immOf]
    intro hmem
    simp only [List.mem_cons, List.not_mem_nil, or_false] at hmem
    rcases hmem with hA | hB
    · have := xor32_lt v env.m32
      omega
    · have := lo32_lt env.m32
      omega
  · exact absurd ⟨rfl, hsb32⟩ h3
  · exact absurd ⟨rfl, hsb64⟩ h4.2
  · simp only [immsOf, List.filterMap_cons, List.filterMap_nil, immOf]
    intro hmem
    simp only [List.mem_cons, List.not_mem_nil, or_false] at hmem
    rcases hmem with hA | hB
    · exact hM0 (xor_eq_left (a := lo64 v) (hA.symm.trans hv64.symm))
    · exact hMv hB.symm
  · exact absurd ⟨rfl, hsb64⟩ h5

end NX64

namespace NX64

/-! ### C2 claim theorems -/

/-- C2 counterexample.  The claim states that the raw value `v` never
appears as an emitted immediate in the blinded materialization.  With
blind mask 0 (the mask is a process-wide random value; nothing in the
code excludes 0) the blinded 32-bit materialization of `v = 5` emits
`mov r, 5 ^ 0 = 5`: the raw value itself. -/
theorem c2_materialize_counterexample :
    (5 : Nat) ∈ immsOf (asm_immi (⟨fun _ => true, fun _ => true, 0, 0, 0,
      true, RCX, RCX, 0, 0, true, true, 0⟩ : ImmEnv) RAX 5 true true) := by
  decide

/-- C2 (amended).  Value correctness holds unconditionally: for every
mask, the blinded (and unblinded) materializations by `asm_immi` and
`asm_immq` leave exactly `v` in `r`; `xor r, r` is emitted for zero
exactly when condition codes may be clobbered; the executed sequences
are the mov/xor pairs the claim describes (with `asm_immq` delegating
values below `2^32` to the 32-bit path); and the raw value `v` appears
as an emitted immediate only for degenerate masks: it never appears
provided the 32-bit mask is neither 0 nor `lo32 v` and the 64-bit mask
is neither 0 nor `v`. -/
theorem c2_materialize_amended :
    (∀ (env : ImmEnv) (r : Register) (v : Nat) (ccs blind : Bool)
        (st : MState), v < W32 →
        (runL (asm_immi env r v ccs blind) st).regs r = v)
    ∧ (∀ (env : ImmEnv) (r : Register) (v : Nat) (ccs blind : Bool)
        (st : MState), v < W64 → env.tq ≠ r → st.rip = env.rip →
        (runL (asm_immq env r v ccs blind) st).regs r = v)
    ∧ (∀ (env : ImmEnv) (r : Register) (blind : Bool),
        asm_immi env r 0 true blind = [.xorrr r r])
    ∧ (∀ (env : ImmEnv) (r : Register) (v : Nat) (ccs : Bool),
        v < W32 → env.sb32 (lo32 v) = true → lo32 env.m32 ≠ 0 →
        lo32 env.m32 ≠ v → v ∉ immsOf (asm_immi env r v ccs true))
    ∧ (∀ (env : ImmEnv) (r : Register) (v : Nat) (ccs : Bool),
        v < W64 → env.sb32 (lo32 v) = true → env.sb64 (lo64 v) = true →
        lo32 env.m32 ≠ 0 → lo32 env.m32 ≠ lo32 v → lo64 env.m64 ≠ 0 →
        lo64 env.m64 ≠ v → v ∉ immsOf (asm_immq env r v ccs true))
    ∧ (∀ (env : ImmEnv) (r : Register) (v : Nat) (ccs : Bool),
        ¬(v = 0 ∧ ccs = true) → env.sb32 (lo32 v) = true →
        asm_immi env r v ccs true =
          [.movi r (xor32 v env.m32), .xorlri r (lo32 env.m32)])
    ∧ (∀ (env : ImmEnv) (r : Register) (v : Nat) (ccs : Bool),
        isU32of64 v = false → isS32of64 v = true → env.sb32 (lo32 v) = true →
        asm_immq env r v ccs true =
          [.movqi32 r (xor32 v env.m32), .movqi32 env.tq (lo32 env.m32),
            .xorqrr r env.tq])
    ∧ (∀ (env : ImmEnv) (r : Register) (v : Nat) (ccs : Bool),
        isU32of64 v = false → isS32of64 v = false → env.sb64 (lo64 v) = true →
        asm_immq env r v ccs true =
          [.movqi r (lo64 v ^^^ lo64 env.m64), .movqi env.tq (lo64 env.m64),
            .xorqrr r env.tq]) := by
  refine ⟨?_, ?_, ?_, ?_, ?_, ?_, ?_, ?_⟩
  · intro env r v ccs blind st hv
    exact asm_immi_value env r v ccs blind st hv
  · intro env r v ccs blind st hv ht hrip
    exact asm_immq_value env r v ccs blind st hv ht hrip
  · intro env r blind
    simp [asm_immi]
  · intro env r v ccs hv hsb hm0 hmv
    exact immi_noexpose env r v ccs hv hsb hm0 hmv
  · intro env r v ccs hv h32 h64 hm0 hmv hM0 hMv
    exact immq_noexpose env r v ccs hv h32 h64 hm0 hmv hM0 hMv
  · intro env r v ccs h1 h2
    rw [asm_immi, if_neg h1, if_pos ⟨rfl, h2⟩]
  · intro env r v ccs h1 h2 h3
    rw [asm_immq, if_neg (by simp [h1]), if_pos h2, if_pos ⟨rfl, h3⟩]
  · intro env r v ccs h1 h2 h3
    rw [asm_immq, if_neg (by simp [h1]), if_neg (by simp [h2]),
      if_neg (fun hc => hc.2 ⟨rfl, h3⟩), if_pos ⟨rfl, h3⟩]

/-- C2 witness: the amended theorem applied at mask32 81, mask64 99,
value 3 (blinded 64-bit materialization into RAX with temp RCX) and at
value 7 for the non-exposure part. -/
theorem c2_materialize_amended_witness :
    (runL (asm_immq (⟨fun _ => true, fun _ => true, 81, 99, 0, true, RCX,
        RCX, 0, 0, true, true, 0⟩ : ImmEnv) RAX 3 true true)
      (⟨fun _ => 0, none, 0, fun _ _ => 0⟩ : MState)).regs RAX = 3 ∧
    (7 : Nat) ∉ immsOf (asm_immq (⟨fun _ => true, fun _ => true, 81, 99, 0,
      true, RCX, RCX, 0, 0, true, true, 0⟩ : ImmEnv) RAX 7 true true) := by
  refine ⟨c2_materialize_amended.2.1 _ RAX 3 true true _ (by decide)
    (by decide) rfl, ?_⟩
  exact c2_materialize_amended.2.2.2.2.1 _ RAX 7 true (by decide) (by decide)
    (by decide) (by decide) (by decide) (by decide) (by decide)

/-! ### C10 claim theorems -/

/-- C10 counterexample.  `v = 0x80000000` is outside the signed 32-bit
range (so the claim asserts the movabs/xor pair with the 64-bit mask is
emitted for it when blinded and within reach), but `asm_immq` first
tests `isU32(v)` and delegates it to the 32-bit path, which emits the
32-bit `mov r, v^mask32; xor r, mask32` pair instead. -/
theorem c10_immq_counterexample :
    isS32of64 2147483648 = false ∧
    asm_immq (⟨fun _ => true, fun _ => true, 81, 99, 0, true, RCX, RCX, 0, 0,
        true, true, 0⟩ : ImmEnv) RAX 2147483648 true true =
      [.movi RAX (xor32 2147483648 81), .xorlri RAX 81] := by
  exact ⟨by decide, by decide⟩

/-- C10 (amended).  For every 64-bit value outside both the unsigned
and the signed 32-bit ranges, with blinding requested and
`shouldBlind` true, `asm_immq` emits exactly the movabs/xor pair with
the 64-bit blind mask; and for every blinded-and-blindable value the
RIP-relative LEA encoding is never emitted. -/
theorem c10_immq_blind_amended :
    (∀ (env : ImmEnv) (r : Register) (v : Nat) (ccs : Bool),
        isU32of64 v = false → isS32of64 v = false → env.sb64 (lo64 v) = true →
        asm_immq env r v ccs true =
          [.movqi r (lo64 v ^^^ lo64 env.m64), .movqi env.tq (lo64 env.m64),
            .xorqrr r env.tq])
    ∧ (∀ (env : ImmEnv) (r : Register) (v : Nat) (ccs : Bool),
        env.sb64 (lo64 v) = true →
        ∀ i ∈ asm_immq env r v ccs true, isLearip i = false) := by
  constructor
  · intro env r v ccs h1 h2 h3
    rw [asm_immq, if_neg (by simp [h1]), if_neg (by simp [h2]),
      if_neg (fun hc => hc.2 ⟨rfl, h3⟩), if_pos ⟨rfl, h3⟩]
  · intro env r v ccs h3 i hi
    rw [asm_immq] at hi
    split_ifs at hi with h1 h2 hc hd he
    · rw [asm_immi] at hi
      split_ifs at hi <;> simp only [List.mem_cons, List.not_mem_nil,
        or_false] at hi <;> rcases hi with rfl | hi <;>
        first
          | rfl
          | (rcases hi with rfl | hi <;> first | rfl | exact absurd hi (by simp))
    · simp only [List.mem_cons, List.not_mem_nil, or_false] at hi
      rcases hi with rfl | rfl | rfl <;> rfl
    · simp only [List.mem_cons, List.not_mem_nil, or_false] at hi
      rcases hi with rfl | hi <;> rfl
    · exact absurd ⟨rfl, h3⟩ hd.2
    · simp only [List.mem_cons, List.not_mem_nil, or_false] at hi
      rcases hi with rfl | rfl | rfl <;> rfl
    · simp only [List.mem_cons, List.not_mem_nil, or_false] at hi
      rcases hi with rfl | hi <;> rfl

/-- C10 witness: the amended theorem applied to `v = 2^33` with masks
81/99 and temp RCX. -/
theorem c10_immq_blind_amended_witness :
    asm_immq (⟨fun _ => true, fun _ => true, 81, 99, 0, true, RCX, RCX, 0, 0,
        true, true, 0⟩ : ImmEnv) RAX 8589934592 true true =
      [.movqi RAX (lo64 8589934592 ^^^ lo64 99), .movqi RCX (lo64 99),
        .xorqrr RAX RCX] :=
  c10_immq_blind_amended.1 _ RAX 8589934592 true (by decide) (by decide)
    (by decide)

end NX64

namespace NX64

/-! ### C3 helper and claim theorems -/

theorem branchi_form (force onFalse : Bool) (condop : CondOp)
    (delta : Int) (h1 : isCmpDOpcode condop = false)
    (h2 : isCmpFOpcode condop = false) :
    asm_branch_helper force onFalse condop delta =
      some (if isTargetWithinS8 force delta = true then
          [.jcc (.intCC onFalse) 2 .target]
        else if isTargetWithinS32 force delta = true then
          [.jcc (.intCC onFalse) 6 .target]
        else [.jcc (.intCC (!onFalse)) 2 .skip, .jmp64]) := by
  rw [asm_branch_helper, if_neg (by simp [h1, h2])]
  split_ifs <;> rfl

theorem branchd_ltgt_form (force onFalse : Bool) (condop : CondOp)
    (delta : Int)
    (h : condop = .ltd ∨ condop = .gtd ∨ condop = .ltf ∨ condop = .gtf) :
    asm_branch_helper force onFalse condop delta =
      some (if isTargetWithinS32 force delta = true then
          [.jcc (if onFalse then .jbe else .ja) 6 .target]
        else [.jcc (if onFalse then .ja else .jbe) 2 .skip, .jmp64]) := by
  rcases h with rfl | rfl | rfl | rfl <;>
    · rw [asm_branch_helper, if_pos (by simp [isCmpDOpcode, isCmpFOpcode])]
      simp only [asm_branchd_helper, isCmpFOpcode, getCmpDOpcode]
      cases onFalse <;> split_ifs <;> simp_all [ddCC]

theorem branchd_lege_form (force onFalse : Bool) (condop : CondOp)
    (delta : Int)
    (h : condop = .led ∨ condop = .ged ∨ condop = .lef ∨ condop = .gef) :
    asm_branch_helper force onFalse condop delta =
      some (if isTargetWithinS32 force delta = true then
          [.jcc (if onFalse then .jb else .jae) 6 .target]
        else [.jcc (if onFalse then .jae else .jb) 2 .skip, .jmp64]) := by
  rcases h with rfl | rfl | rfl | rfl <;>
    · rw [asm_branch_helper, if_pos (by simp [isCmpDOpcode, isCmpFOpcode])]
      simp only [asm_branchd_helper, isCmpFOpcode, getCmpDOpcode]
      cases onFalse <;> split_ifs <;> simp_all [ddCC]

theorem branchd_eq_form (force onFalse : Bool) (condop : CondOp)
    (delta : Int) (h : condop = .eqd ∨ condop = .eqf) :
    asm_branch_helper force onFalse condop delta =
      some (if onFalse then
          (if isTargetWithinS32 force delta = true then
            [.jcc .jne 6 .target, .jcc .jp 6 .target]
          else [.jcc .je 2 .skip, .jmp64, .jcc .jnp 2 .skip, .jmp64])
        else
          (if isTargetWithinS32 force delta = true then
            [.jcc .jp 2 .skip, .jcc .je 6 .target]
          else [.jcc .jp 2 .skip, .jcc .jne 2 .skip, .jmp64])) := by
  rcases h with rfl | rfl <;>
    · rw [asm_branch_helper, if_pos (by simp [isCmpDOpcode, isCmpFOpcode])]
      simp only [asm_branchd_helper, isCmpFOpcode, getCmpDOpcode]
      cases onFalse <;> split_ifs <;> simp_all

/-- C3 counterexample.  The claim quantifies over every conditional LIR
opcode, but `asm_branch_helper` delegates float/double compares to
`asm_branchd_helper`, which never emits the 2-byte short form: at
distance 100 — well within ±127, `force_long_branch` off — the `ltd`
branch is a single 6-byte `ja`, while the integer path at the same
distance does emit the claimed 2-byte form. -/
theorem c3_branch_reach_counterexample :
    isS8i 100 = true ∧
    asm_branch_helper false false .ltd 100 = some [.jcc .ja 6 .target] ∧
    asm_branch_helper false false .intCond 100 =
      some [.jcc (.intCC false) 2 .target] :=
  ⟨by decide, by decide, by decide⟩

/-- C3 (amended).  For integer (and float4) conditions,
`asm_branch_helper` picks the 2-byte form when the distance from the
post-`underrunProtect` cursor is within a signed byte, the 6-byte form
when it fits a signed 32-bit offset but not a signed byte, and the
inverted 8-bit conditional over a 64-bit jump otherwise; when
`force_long_branch` is set both short tests report false, so the
64-bit pattern is used.  Float and double compares are delegated to
`asm_branchd_helper`: the non-equality forms emit a single 6-byte
unsigned jcc whenever the target is within a signed 32-bit offset —
even when the distance fits a signed byte — and otherwise an inverted
8-bit jcc over a 64-bit jump; the equality forms emit the
parity-handling patterns; and no pattern of the float/double path ever
contains a 2-byte jump to the branch target. -/
theorem c3_branch_reach_amended (force onFalse : Bool) (delta : Int) :
    (∀ condop : CondOp, isCmpDOpcode condop = false →
        isCmpFOpcode condop = false →
        asm_branch_helper force onFalse condop delta =
          some (if isTargetWithinS8 force delta = true then
              [.jcc (.intCC onFalse) 2 .target]
            else if isTargetWithinS32 force delta = true then
              [.jcc (.intCC onFalse) 6 .target]
            else [.jcc (.intCC (!onFalse)) 2 .skip, .jmp64]))
    ∧ (∀ condop : CondOp,
        (condop = .ltd ∨ condop = .gtd ∨ condop = .ltf ∨ condop = .gtf) →
        asm_branch_helper force onFalse condop delta =
          some (if isTargetWithinS32 force delta = true then
              [.jcc (if onFalse then .jbe else .ja) 6 .target]
            else [.jcc (if onFalse then .ja else .jbe) 2 .skip, .jmp64]))
    ∧ (∀ condop : CondOp,
        (condop = .led ∨ condop = .ged ∨ condop = .lef ∨ condop = .gef) →
        asm_branch_helper force onFalse condop delta =
          some (if isTargetWithinS32 force delta = true then
              [.jcc (if onFalse then .jb else .jae) 6 .target]
            else [.jcc (if onFalse then .jae else .jb) 2 .skip, .jmp64]))
    ∧ (∀ condop : CondOp, (condop = .eqd ∨ condop = .eqf) →
        asm_branch_helper force onFalse condop delta =
          some (if onFalse then
              (if isTargetWithinS32 force delta = true then
                [.jcc .jne 6 .target, .jcc .jp 6 .target]
              else [.jcc .je 2 .skip, .jmp64, .jcc .jnp 2 .skip, .jmp64])
            else
              (if isTargetWithinS32 force delta = true then
                [.jcc .jp 2 .skip, .jcc .je 6 .target]
              else [.jcc .jp 2 .skip, .jcc .jne 2 .skip, .jmp64])))
    ∧ (∀ (condop : CondOp) (l : List BrIns) (cc : JccKind),
        isCmpDOpcode condop = true ∨ isCmpFOpcode condop = true →
        asm_branch_helper force onFalse condop delta = some l →
        BrIns.jcc cc 2 .target ∉ l) := by
  refine ⟨?_, ?_, ?_, ?_, ?_⟩
  · intro condop h1 h2
    exact branchi_form force onFalse condop delta h1 h2
  · intro condop h
    exact branchd_ltgt_form force onFalse condop delta h
  · intro condop h
    exact branchd_lege_form force onFalse condop delta h
  · intro condop h
    exact branchd_eq_form force onFalse condop delta h
  · intro condop l cc hD hsome hmem
    have hcases : (condop = .ltd ∨ condop = .gtd ∨ condop = .ltf ∨
        condop = .gtf) ∨ (condop = .led ∨ condop = .ged ∨ condop = .lef ∨
        condop = .gef) ∨ (condop = .eqd ∨ condop = .eqf) := by
      cases condop <;> simp_all [isCmpDOpcode, isCmpFOpcode]
    rcases hcases with h | h | h
    · rw [branchd_ltgt_form force onFalse condop delta h] at hsome
      cases hsome
      split_ifs at hmem <;> simp_all
    · rw [branchd_lege_form force onFalse condop delta h] at hsome
      cases hsome
      split_ifs at hmem <;> simp_all
    · rw [branchd_eq_form force onFalse condop delta h] at hsome
      cases hsome
      split_ifs at hmem <;> simp_all

/-- C3 witness: the amended theorem at distance 100 for an integer
condition (2-byte form), for `ltd` (6-byte form despite the distance
fitting a signed byte), and for `eqf` under `force_long_branch` (the
64-bit parity pattern). -/
theorem c3_branch_reach_amended_witness :
    (asm_branch_helper false true .intCond 100 =
      some (if isTargetWithinS8 false 100 = true then
          [.jcc (.intCC true) 2 .target]
        else if isTargetWithinS32 false 100 = true then
          [.jcc (.intCC true) 6 .target]
        else [.jcc (.intCC false) 2 .skip, .jmp64])) ∧
    (asm_branch_helper false true .ltd 100 =
      some (if isTargetWithinS32 false 100 = true then
          [.jcc .jbe 6 .target]
        else [.jcc .ja 2 .skip, .jmp64])) ∧
    (asm_branch_helper true false .eqf 100 =
      some (if isTargetWithinS32 true 100 = true then
          [.jcc .jp 2 .skip, .jcc .je 6 .target]
        else [.jcc .jp 2 .skip, .jcc .jne 2 .skip, .jmp64])) :=
  ⟨(c3_branch_reach_amended false true 100).1 .intCond (by decide)
      (by decide),
   (c3_branch_reach_amended false true 100).2.1 .ltd (Or.inl rfl),
   by
     have h := (c3_branch_reach_amended true false 100).2.2.2.1 .eqf
       (Or.inr rfl)
     simpa using h⟩

/-! ### C4 claim theorems -/

/-- C4 counterexample.  The claim states that when the computed offset
does not fit a signed 32 bits, `emit_target32` calls
`setError(BranchTooFar)` and no further emission occurs.  On the code,
`emit(op | ...)` is executed unconditionally after `setError`: at a
target `2^40` bytes away the error is set and the instruction word is
nevertheless written (with the truncated offset). -/
theorem c4_branchtoofar_counterexample :
    (emit_target32 (⟨0, [], none⟩ : EmitState) 6 (some 1099511627776)).err =
      some .branchTooFar ∧
    (emit_target32 (⟨0, [], none⟩ : EmitState) 6
        (some 1099511627776)).emitted ≠ [] := by
  exact ⟨by decide, by decide⟩

/-- C4 (amended).  `emit_target32` sets BranchTooFar exactly when the
offset from the successor instruction does not fit a signed 32 bits,
and the instruction is still emitted afterwards (the enclosing driver
observes the poisoned Assembler).  `nPatchBranch` on a `jmp disp32` or
`jcc disp32` site succeeds exactly when the new target is within a
signed 32-bit offset of the instruction end, patching the displacement
in place, and otherwise sets BranchTooFar and leaves the site's bytes
unchanged; the 8-byte absolute slot of a `jmp [rip+0]` site is always
patchable. -/
theorem c4_branchtoofar_amended :
    (∀ (st : EmitState) (op : Nat) (t : Int), st.err = none →
        ((emit_target32 st op (some t)).err = some .branchTooFar ↔
          isS32i (t - st.nIns) = false))
    ∧ (∀ (st : EmitState) (op : Nat) (target : Option Int),
        (emit_target32 st op target).emitted.length = st.emitted.length + 1)
    ∧ (∀ (rest : List Nat) (paddr target : Int),
        (isS32i (target - (paddr + 5)) = true →
          nPatchBranch (233 :: rest) paddr target =
            (writeAt (233 :: rest) 1
              (bytesOfU32 (toU32int (target - (paddr + 5)))), none))
        ∧ (isS32i (target - (paddr + 5)) = false →
          nPatchBranch (233 :: rest) paddr target =
            (233 :: rest, some .branchTooFar)))
    ∧ (∀ (b1 : Nat) (rest : List Nat) (paddr target : Int), b1 &&& 240 = 128 →
        (isS32i (target - (paddr + 6)) = true →
          nPatchBranch (15 :: b1 :: rest) paddr target =
            (writeAt (15 :: b1 :: rest) 2
              (bytesOfU32 (toU32int (target - (paddr + 6)))), none))
        ∧ (isS32i (target - (paddr + 6)) = false →
          nPatchBranch (15 :: b1 :: rest) paddr target =
            (15 :: b1 :: rest, some .branchTooFar)))
    ∧ (∀ (rest : List Nat) (paddr target : Int),
        (nPatchBranch (255 :: 37 :: rest) paddr target).2 = none) := by
  refine ⟨?_, ?_, ?_, ?_, ?_⟩
  · intro st op t herr
    simp only [emit_target32]
    constructor
    · intro h
      by_contra hne
      rw [Bool.not_eq_false] at hne
      rw [if_pos hne] at h
      simp [emit_op] at h
      rw [herr] at h
      exact Option.noConfusion h
    · intro h
      rw [if_neg (by simp [h]), setError]
      simp [emit_op]
  · intro st op target
    simp only [emit_target32]
    split_ifs <;> simp [emit_op, setError]
  · intro rest paddr target
    constructor
    · intro h
      simp [nPatchBranch, h]
    · intro h
      simp [nPatchBranch, h]
  · intro b1 rest paddr target hb
    constructor
    · intro h
      simp [nPatchBranch, hb, h]
    · intro h
      simp [nPatchBranch, hb, h]
  · intro rest paddr target
    simp [nPatchBranch]

/-- C4 witness: patching a `jmp disp32` site to a target in reach
updates the displacement bytes; the same site with a target `2^40` away
reports BranchTooFar with the bytes unchanged. -/
theorem c4_branchtoofar_amended_witness :
    nPatchBranch [233, 0, 0, 0, 0] 0 25 =
      (writeAt [233, 0, 0, 0, 0] 1 (bytesOfU32 (toU32int (25 - (0 + 5)))),
        none) ∧
    nPatchBranch [233, 0, 0, 0, 0] 0 1099511627776 =
      ([233, 0, 0, 0, 0], some .branchTooFar) :=
  ⟨(c4_branchtoofar_amended.2.2.1 [0, 0, 0, 0] 0 25).1 (by decide),
    (c4_branchtoofar_amended.2.2.1 [0, 0, 0, 0] 0 1099511627776).2 (by decide)⟩

end NX64

namespace NX64

/-! ### C7 helper lemmas: materialization with `canClobberCCs = false`
emits only flag-preserving instructions -/

theorem asm_immi_ccsafe (env : ImmEnv) (r : Register) (v : Nat) :
    ∀ i ∈ asm_immi env r v false false, writesFlags i = false := by
  simp [asm_immi, List.forall_mem_cons, writesFlags]

theorem asm_immq_ccsafe (env : ImmEnv) (r : Register) (v : Nat) :
    ∀ i ∈ asm_immq env r v false false, writesFlags i = false := by
  intro i hi
  rw [asm_immq] at hi
  split_ifs at hi with h1 h2 h3 h4 h5
  · exact asm_immi_ccsafe env r (lo64 v) i hi
  · simp at h3
  · simp only [List.mem_cons, List.not_mem_nil, or_false] at hi
    subst hi
    rfl
  · simp only [List.mem_cons, List.not_mem_nil, or_false] at hi
    subst hi
    rfl
  · simp at h5
  · simp only [List.mem_cons, List.not_mem_nil, or_false] at hi
    subst hi
    rfl

theorem asm_immd_ccsafe (env : ImmEnv) (r : Register) (v : Nat) :
    ∀ i ∈ asm_immd env r v false false, writesFlags i = false := by
  intro i hi
  rw [asm_immd, if_neg (by simp)] at hi
  rcases List.mem_append.mp hi with hL | hR
  · exact asm_immq_ccsafe env env.rt v i hL
  · simp only [List.mem_cons, List.not_mem_nil, or_false] at hR
    subst hR
    rfl

theorem asm_immf_ccsafe (env : ImmEnv) (r : Register) (v : Nat) :
    ∀ i ∈ asm_immf env r v false false, writesFlags i = false := by
  intro i hi
  rw [asm_immf, if_neg (by simp)] at hi
  rcases List.mem_append.mp hi with hL | hR
  · exact asm_immi_ccsafe env env.rt v i hL
  · simp only [List.mem_cons, List.not_mem_nil, or_false] at hR
    subst hR
    rfl

theorem asm_immf4_ccsafe (env : ImmEnv) (r : Register) (v0 v1 : Nat)
    (blind : Bool) :
    ∀ i ∈ asm_immf4 env r v0 v1 false blind, writesFlags i = false := by
  intro i hi
  rw [asm_immf4, if_neg (by simp)] at hi
  split_ifs at hi with h2 h3 h4 h5
  · exact asm_immd_ccsafe env r v0 i hi
  · simp only [List.mem_cons, List.not_mem_nil, or_false] at hi
    subst hi
    rfl
  · simp only [List.mem_cons, List.not_mem_nil, or_false] at hi
    subst hi
    rfl
  · rcases List.mem_append.mp hi with hL | hR
    · exact asm_immq_ccsafe env env.rt env.poolAddr i hL
    · simp only [List.mem_cons, List.not_mem_nil, or_false] at hR
      subst hR
      rfl
  · rcases List.mem_append.mp hi with hL | hR
    · exact asm_immq_ccsafe env env.rt env.poolAddr i hL
    · simp only [List.mem_cons, List.not_mem_nil, or_false] at hR
      subst hR
      rfl

theorem asm_restore_flagsafe (env : ImmEnv) (ins : RVal) (r : Register) :
    ∀ i ∈ asm_restore env ins r, writesFlags i = false := by
  intro i hi
  cases ins <;> rw [asm_restore] at hi
  case allocp =>
    simp only [List.mem_cons, List.not_mem_nil, or_false] at hi
    subst hi
    rfl
  case immi v t =>
    split_ifs at hi with h1 <;>
      first
        | exact asm_immi_ccsafe env r v i hi
        | (simp only [List.mem_cons, List.not_mem_nil, or_false] at hi
           subst hi
           rfl)
  case immq v t =>
    split_ifs at hi with h1 <;>
      first
        | exact asm_immq_ccsafe env r v i hi
        | (simp only [List.mem_cons, List.not_mem_nil, or_false] at hi
           subst hi
           rfl)
  case immd v t =>
    split_ifs at hi with h1 <;>
      first
        | exact asm_immd_ccsafe env r v i hi
        | (simp only [List.mem_cons, List.not_mem_nil, or_false] at hi
           subst hi
           rfl)
  case immf v t =>
    split_ifs at hi with h1 <;>
      first
        | exact asm_immf_ccsafe env r v i hi
        | (simp only [List.mem_cons, List.not_mem_nil, or_false] at hi
           subst hi
           rfl)
  case immf4 v0 v1 t =>
    exact asm_immf4_ccsafe env r v0 v1 t i hi
  case addiL inBase l imm t =>
    split_ifs at hi <;>
      · simp only [List.mem_cons, List.not_mem_nil, or_false] at hi
        subst hi
        rfl
  case addqL inBase l imm t =>
    split_ifs at hi <;>
      · simp only [List.mem_cons, List.not_mem_nil, or_false] at hi
        subst hi
        rfl
  case otherI =>
    simp only [List.mem_cons, List.not_mem_nil, or_false] at hi
    subst hi
    rfl
  case otherQ =>
    simp only [List.mem_cons, List.not_mem_nil, or_false] at hi
    subst hi
    rfl
  case otherD =>
    simp only [List.mem_cons, List.not_mem_nil, or_false] at hi
    subst hi
    rfl
  case otherF =>
    simp only [List.mem_cons, List.not_mem_nil, or_false] at hi
    subst hi
    rfl
  case otherF4 =>
    simp only [List.mem_cons, List.not_mem_nil, or_false] at hi
    subst hi
    rfl

end NX64

namespace NX64

/-! ### C7 claim theorems -/

/-- C7 counterexample.  The claim states that `asm_restore` uses plain
loads from the spill slot for everything that is not an allocp/LEA form
or an untainted immediate.  A tainted float4 immediate is the
exception: `asm_restore` forwards it to `asm_immf4`, which
rematerializes it from the constant pool (here an aligned,
RIP-reachable slot at displacement 16), not from the spill slot. -/
theorem c7_restore_counterexample :
    asm_restore (⟨fun _ => true, fun _ => true, 81, 99, 0, true, RCX, RCX,
        16, 4096, true, true, 40⟩ : ImmEnv) (.immf4 1 2 true) RAX =
      [.movapsrip RAX 16] ∧
    asm_restore (⟨fun _ => true, fun _ => true, 81, 99, 0, true, RCX, RCX,
        16, 4096, true, true, 40⟩ : ImmEnv) (.immf4 1 2 true) RAX ≠
      [.ldrm .ldups RAX 40 FP] := by
  exact ⟨by decide, by decide⟩

/-- C7 (amended).  `canRemat` rejects every tainted blindable integer
immediate (32- and 64-bit), so the allocator spills it; `asm_restore`
emits only flag-preserving instructions for every LIR value shape; and
tainted blindable integer immediates are reloaded from the spill slot
rather than synthesized with xor.  (Exception to the claim's taxonomy:
tainted float4 immediates are rematerialized from the constant pool —
also without touching EFLAGS.) -/
theorem c7_restore_flags_amended :
    (∀ (env : ImmEnv) (v : Nat), env.sb32 (lo32 v) = true →
        canRemat env (.immi v true) = false)
    ∧ (∀ (env : ImmEnv) (v : Nat), env.sb64 (lo64 v) = true →
        canRemat env (.immq v true) = false)
    ∧ (∀ (env : ImmEnv) (ins : RVal) (r : Register),
        ∀ i ∈ asm_restore env ins r, writesFlags i = false)
    ∧ (∀ (env : ImmEnv) (v : Nat) (r : Register), env.sb32 (lo32 v) = true →
        asm_restore env (.immi v true) r = [.ldrm .l32 r env.d FP])
    ∧ (∀ (env : ImmEnv) (v : Nat) (r : Register), env.sb64 (lo64 v) = true →
        asm_restore env (.immq v true) r = [.ldrm .l64 r env.d FP]) := by
  refine ⟨?_, ?_, ?_, ?_, ?_⟩
  · intro env v h
    simp [canRemat, RVal.isImmAny, RVal.isImmITaintedBlindable,
      RVal.isImmQTaintedBlindable, RVal.isAllocp, canRematLEA, h]
  · intro env v h
    simp [canRemat, RVal.isImmAny, RVal.isImmITaintedBlindable,
      RVal.isImmQTaintedBlindable, RVal.isAllocp, canRematLEA, h]
  · exact asm_restore_flagsafe
  · intro env v r h
    rw [asm_restore, if_neg (by simp [h])]
  · intro env v r h
    rw [asm_restore, if_neg (by simp [h])]

/-- C7 witness: the amended theorem at a concrete environment and the
tainted blindable immediate 77. -/
theorem c7_restore_flags_amended_witness :
    canRemat (⟨fun _ => true, fun _ => true, 81, 99, 0, true, RCX, RCX, 16,
        4096, true, true, 40⟩ : ImmEnv) (.immi 77 true) = false ∧
    asm_restore (⟨fun _ => true, fun _ => true, 81, 99, 0, true, RCX, RCX,
        16, 4096, true, true, 40⟩ : ImmEnv) (.immi 77 true) RAX =
      [.ldrm .l32 RAX 40 FP] :=
  ⟨c7_restore_flags_amended.1 _ 77 (by decide),
    c7_restore_flags_amended.2.2.2.1 _ 77 RAX (by decide)⟩

/-! ### C5 helper and claim theorem -/

theorem step_lastCmp_of_flagsafe (st : MState) (i : MIns)
    (h : writesFlags i = false) : (step st i).lastCmp = st.lastCmp := by
  cases i <;> simp [writesFlags] at h ⊢ <;>
    simp [step, setReg, clearCmp, setCmp]
  case cmovn c d s =>
    cases hc : st.lastCmp with
    | none => simp [step, hc]
    | some p =>
      simp only [step, hc]
      split_ifs <;> simp [setReg, hc]

theorem runL_lastCmp_of_flagsafe (l : List MIns) (st : MState)
    (h : ∀ i ∈ l, writesFlags i = false) :
    (runL l st).lastCmp = st.lastCmp := by
  induction l generalizing st with
  | nil => rfl
  | cons a l ih =>
    have ha := h a (List.mem_cons_self a l)
    have hl : ∀ i ∈ l, writesFlags i = false := fun i hi =>
      h i (List.mem_cons_of_mem a hi)
    show (runL l (step st a)).lastCmp = st.lastCmp
    rw [ih (step st a) hl, step_lastCmp_of_flagsafe st a ha]

/-- C5.  In the GP path of `asm_cmov`, every instruction sitting (in
executed order) between the compare emitted by `asm_cmpi` and the cmov
— the operand restores and the optional register-to-register move —
preserves the condition codes, so the comparison record set by the
`cmp` is still intact when the cmov executes. -/
theorem c5_cmov_flag_preservation (env : ImmEnv) (needMov : Bool)
    (rr rt : Register) (restores : List (RVal × Register)) (w : Bool)
    (a b : Register) (st : MState) :
    (∀ i ∈ asm_cmov_between env needMov rr rt restores,
        writesFlags i = false)
    ∧ (runL (MIns.cmprr w a b :: asm_cmov_between env needMov rr rt restores)
          st).lastCmp = some (w, st.regs a, st.regs b) := by
  have hall : ∀ i ∈ asm_cmov_between env needMov rr rt restores,
      writesFlags i = false := by
    intro i hi
    rw [asm_cmov_between] at hi
    rcases List.mem_append.mp hi with hL | hR
    · rcases List.mem_flatMap.mp hL with ⟨p, _, hip⟩
      exact asm_restore_flagsafe env p.1 p.2 i hip
    · cases needMov
      · simp at hR
      · simp only [List.mem_cons, List.not_mem_nil, or_false,
          if_true] at hR
        subst hR
        rfl
  refine ⟨hall, ?_⟩
  show (runL _ (step st (MIns.cmprr w a b))).lastCmp = _
  rw [runL_lastCmp_of_flagsafe _ _ hall]
  rfl

end NX64

namespace NX64

/-! ### C6 helper lemmas -/

theorem sar32_lo64 (a c : Nat) : sar32 (lo64 a) c = sar32 a c := by
  rw [sar32, sar32, sext_lo64]

theorem s32val_lo64 (a : Nat) : s32val (lo64 a) = s32val a := by
  rw [s32val, s32val, lo32_lo64]

/-- After `mov edx, eax; sar edx, 31`, the pair edx:eax read as a
signed 64-bit value is the sign extension of eax: the int32 value of
eax. -/
theorem preload_sext (a : Nat) :
    s64val (lo32 (sar32 a 31) * W32 + lo32 a) = s32val a := by
  rw [sar32, lo32_lo32, Nat.shiftRight_eq_div_pow]
  simp only [s64val, s32val, sext, lo32, lo64, W32, W64]
  norm_num
  split_ifs <;> omega

end NX64

namespace NX64

theorem div_tail (st : MState) (rb : Register) (hb1 : rb ≠ RAX)
    (hb2 : rb ≠ RDX) :
    (runL [.mr RDX RAX, .sari RDX 31, .idiv rb] st).regs RAX =
      toU32i (Int.tdiv (s32val (st.regs RAX)) (s32val (st.regs rb))) ∧
    (runL [.mr RDX RAX, .sari RDX 31, .idiv rb] st).regs RDX =
      toU32i (Int.tmod (s32val (st.regs RAX)) (s32val (st.regs rb))) := by
  simp only [RAX, RDX] at hb1 hb2 ⊢
  simp only [runL, List.foldl, step, setReg, clearCmp]
  simp [RAX, RDX, hb1, hb2, sar32_lo64, preload_sext]

/-- C6.  `asm_div` / `asm_div_mod` preload RDX:RAX with the sign
extension of EAX (executed as `mov edx, eax; sar edx, 31`, equivalent
to `cdq`), divide by a register drawn from an allow mask that excludes
RAX and RDX, leave the quotient in RAX and (for `asm_div_mod`) the
remainder in RDX, emit exactly one `idiv` for the fused div/mod pair,
and on System V `divi(paramArg=0, paramArg=1)` the executed code is
equivalent to `mov eax, edi; cdq; idiv esi`. -/
theorem c6_idiv_semantics (ra rb : Register) (st : MState)
    (hb1 : rb ≠ RAX) (hb2 : rb ≠ RDX) :
    ((runL (asm_div_code ra rb) st).regs RAX =
        toU32i (Int.tdiv (s32val (st.regs ra)) (s32val (st.regs rb))))
    ∧ ((runL (asm_div_mod_code ra rb) st).regs RAX =
        toU32i (Int.tdiv (s32val (st.regs ra)) (s32val (st.regs rb))))
    ∧ ((runL (asm_div_mod_code ra rb) st).regs RDX =
        toU32i (Int.tmod (s32val (st.regs ra)) (s32val (st.regs rb))))
    ∧ countIdiv (asm_div_code ra rb) = 1
    ∧ countIdiv (asm_div_mod_code ra rb) = 1
    ∧ (rmask RAX &&& divisorAllow = 0 ∧ rmask RDX &&& divisorAllow = 0)
    ∧ (∀ x, (runL (asm_div_code RDI RSI) st).regs x =
        (runL [.mr RAX RDI, .cdq, .idiv RSI] st).regs x) := by
  have main : ∀ su : MState,
      ((runL (asm_div_code ra rb) su).regs RAX =
        toU32i (Int.tdiv (s32val (su.regs ra)) (s32val (su.regs rb)))) ∧
      ((runL (asm_div_code ra rb) su).regs RDX =
        toU32i (Int.tmod (s32val (su.regs ra)) (s32val (su.regs rb)))) := by
    intro su
    rw [asm_div_code]
    by_cases hra : ra = RAX
    · rw [if_pos hra, List.nil_append, hra]
      exact div_tail su rb hb1 hb2
    · rw [if_neg hra]
      show (runL _ (step su (MIns.mr RAX ra))).regs RAX = _ ∧
        (runL _ (step su (MIns.mr RAX ra))).regs RDX = _
      have h1 := div_tail (step su (MIns.mr RAX ra)) rb hb1 hb2
      have hA : (step su (MIns.mr RAX ra)).regs RAX = lo64 (su.regs ra) :=
        setReg_self _ _ _
      have hB : (step su (MIns.mr RAX ra)).regs rb = su.regs rb :=
        setReg_ne _ _ _ _ hb1
      rw [hA, hB, s32val_lo64] at h1
      exact h1
  refine ⟨(main st).1, ?_, ?_, ?_, ?_, ⟨by decide, by decide⟩, ?_⟩
  · have h := (main st).1
    rw [asm_div_code] at h
    rw [asm_div_mod_code]
    exact h
  · have h := (main st).2
    rw [asm_div_code] at h
    rw [asm_div_mod_code]
    exact h
  · by_cases hra : ra = RAX <;> simp [asm_div_code, countIdiv, hra]
  · by_cases hra : ra = RAX <;> simp [asm_div_mod_code, countIdiv, hra]
  · intro x
    have hd : (RDI : Register) = RAX → False := by decide
    simp only [asm_div_code, if_neg (fun h => hd h), List.cons_append,
      List.nil_append]
    simp only [runL, List.foldl, step, setReg, clearCmp]
    simp [RAX, RDX, RDI, RSI, sar32_lo64, lo64_lo64]
    split_ifs <;> rfl

/-- C6 witness: dividing -7 by 3 (EDI holds `2^32 - 7`, ESI holds 3)
leaves `2^32 - 2` (the truncated quotient -2) in RAX. -/
theorem c6_idiv_semantics_witness :
    (runL (asm_div_code RDI RSI)
        (⟨fun x => if x = RDI then 4294967289 else if x = RSI then 3 else 0,
          none, 0, fun _ _ => 0⟩ : MState)).regs RAX = 4294967294 := by
  have h := (c6_idiv_semantics RDI RSI
    (⟨fun x => if x = RDI then 4294967289 else if x = RSI then 3 else 0,
      none, 0, fun _ _ => 0⟩ : MState) (by decide) (by decide)).1
  rw [h]
  decide

/-! ### C8 claim theorem -/

/-- C8.  `underrunProtect(bytes)` guarantees that `bytes` bytes remain
above the chunk start (allocating a new chunk and bridging with a jump
to the old cursor when they do not); since `emit` protects 8 bytes and
writes its 8-byte word ending at the cursor, the store never reaches
below the current chunk start, and on a chunk switch the new chunk's
code ends with a jump to the old cursor, so forward execution
continues across the gap.  `codeAlloc` is modelled as a fresh chunk
`[chunkStart, chunkEnd)` of at least 24 usable bytes; the bridge jump
occupies `jmpLen ≤ 16` bytes. -/
theorem c8_underrun_protect (chunkStart chunkEnd jmpLen bytes : Int)
    (len : Nat) (st : CodeState) (hj1 : 0 < jmpLen) (hj2 : jmpLen ≤ 16)
    (hb0 : 0 ≤ bytes) (hb : bytes ≤ 8) (hc : chunkEnd - chunkStart ≥ 24) :
    ((underrunProtect chunkStart chunkEnd jmpLen bytes st).nIns - bytes ≥
        (underrunProtect chunkStart chunkEnd jmpLen bytes st).codeStart)
    ∧ (st.nIns - bytes < st.codeStart →
        (underrunProtect chunkStart chunkEnd jmpLen bytes st).bridges =
          (chunkEnd - jmpLen, st.nIns) :: st.bridges)
    ∧ (st.nIns - bytes ≥ st.codeStart →
        underrunProtect chunkStart chunkEnd jmpLen bytes st = st)
    ∧ ((emit_write chunkStart chunkEnd jmpLen len st).2.1 ≥
        (emit_write chunkStart chunkEnd jmpLen len st).1.codeStart) := by
  refine ⟨?_, ?_, ?_, ?_⟩
  · rw [underrunProtect]
    split_ifs with h
    · show chunkEnd - jmpLen - bytes ≥ chunkStart
      omega
    · omega
  · intro h
    rw [underrunProtect, if_pos h]
  · intro h
    rw [underrunProtect, if_neg (by omega)]
  · simp only [emit_write]
    rw [underrunProtect]
    split_ifs with h
    · show chunkEnd - jmpLen - 8 ≥ chunkStart
      omega
    · show st.nIns - 8 ≥ st.codeStart
      omega

/-- C8 witness: a cursor 4 bytes above the chunk start cannot take an
8-byte write; the protect call switches to the fresh chunk [100, 200)
and records the bridge jump back to the old cursor. -/
theorem c8_underrun_protect_witness :
    ((underrunProtect 100 200 14 8 (⟨0, 4, []⟩ : CodeState)).nIns - 8 ≥
        (underrunProtect 100 200 14 8 (⟨0, 4, []⟩ : CodeState)).codeStart)
    ∧ (underrunProtect 100 200 14 8 (⟨0, 4, []⟩ : CodeState)).bridges =
        [(186, 4)] := by
  have h := c8_underrun_protect 100 200 14 8 3 (⟨0, 4, []⟩ : CodeState)
    (by decide) (by decide) (by decide) (by decide) (by decide)
  refine ⟨h.1, ?_⟩
  have h2 := h.2.1 (by decide)
  rw [h2]
  decide

/-! ### C9 helper lemmas: byte packing in `mod_disp32` -/

theorem lor_add_of_mod_eq_zero {i a b : Nat} (ha : a % 2 ^ i = 0)
    (hb : b < 2 ^ i) : a ||| b = a + b := by
  have h2 : 2 ^ i * (a / 2 ^ i) = a := by
    rw [Nat.mul_comm]
    exact Nat.div_mul_cancel (Nat.dvd_of_mod_eq_zero ha)
  rw [← h2]
  exact (Nat.mul_add_lt_is_or hb _).symm

theorem lor_mul_pow_add (i a b c : Nat) (hb : b < 2 ^ i) :
    (2 ^ i * a + b) ||| 2 ^ i * c = 2 ^ i * (a ||| c) + b := by
  apply Nat.eq_of_testBit_eq
  intro j
  rw [Nat.testBit_lor, Nat.testBit_mul_pow_two_add _ hb,
    Nat.testBit_mul_pow_two_add _ hb]
  by_cases hj : j < i
  · simp [hj, Nat.testBit_mul_pow_two, Nat.not_le_of_lt hj]
  · simp [hj, Nat.testBit_mul_pow_two, Nat.le_of_not_lt hj,
      Nat.testBit_lor]

theorem land_maskC (op : Nat) (hop : op < 4294967296) :
    op &&& 18446744069431361535 = op % 16777216 := by
  have hC : (18446744069431361535 : Nat) = 2 ^ 32 * (2 ^ 32 - 1) +
      (2 ^ 24 - 1) := by norm_num
  have h24 : (16777216 : Nat) = 2 ^ 24 := by norm_num
  have hT : ∀ j, Nat.testBit 16777215 j = decide (j < 24) := by
    intro j
    have h : (16777215 : Nat) = 2 ^ 24 - 1 := by norm_num
    rw [h, Nat.testBit_two_pow_sub_one]
  apply Nat.eq_of_testBit_eq
  intro j
  rw [Nat.testBit_land, hC,
    Nat.testBit_mul_pow_two_add _ (by norm_num : (2 ^ 24 - 1 : Nat) < 2 ^ 32),
    h24, Nat.testBit_mod_two_pow]
  by_cases hj : j < 24
  · have hj32 : j < 32 := by omega
    simp [hj, hj32, hT]
  · by_cases hj32 : j < 32
    · simp [hj, hj32, hT]
    · have hb : op.testBit j = false := by
        apply Nat.testBit_lt_two_pow
        calc op < 4294967296 := hop
        _ = 2 ^ 32 := by norm_num
        _ ≤ 2 ^ j := Nat.pow_le_pow_right (by norm_num) (by omega)
      simp [hj, hj32, hb]

theorem modrm_sum64 (r b : Nat) :
    ((64 : Nat) ||| ((r % 8) <<< 3) ||| (b % 8)) =
      64 + 8 * (r % 8) + (b % 8) := by
  have e3 : ((r % 8) <<< 3 : Nat) = 8 * (r % 8) := by
    rw [Nat.shiftLeft_eq]
    ring
  have hr8 : r % 8 < 8 := Nat.mod_lt _ (by norm_num)
  have hb8 : b % 8 < 8 := Nat.mod_lt _ (by norm_num)
  have hA : (64 : Nat) ||| ((r % 8) <<< 3) = 64 + 8 * (r % 8) := by
    rw [e3]
    exact lor_add_of_mod_eq_zero (i := 6) (by norm_num) (by omega)
  rw [hA]
  exact lor_add_of_mod_eq_zero (i := 3) (by omega) (by omega)

theorem modrm_sum0 (r b : Nat) :
    (((r % 8) <<< 3 : Nat) ||| (b % 8)) = 8 * (r % 8) + (b % 8) := by
  have e3 : ((r % 8) <<< 3 : Nat) = 8 * (r % 8) := by
    rw [Nat.shiftLeft_eq]
    ring
  have hb8 : b % 8 < 8 := Nat.mod_lt _ (by norm_num)
  rw [e3]
  exact lor_add_of_mod_eq_zero (i := 3) (by omega) (by omega)

theorem toU8int_lt (d : Int) : toU8int d < 256 := by
  rw [toU8int]
  have h1 : 0 ≤ d.emod 256 := Int.emod_nonneg d (by norm_num)
  have h2 : d.emod 256 < 256 := Int.emod_lt_of_pos d (by norm_num)
  omega

theorem toU32int_lt (d : Int) : toU32int d < 4294967296 := by
  rw [toU32int]
  have h1 : 0 ≤ d.emod 4294967296 := Int.emod_nonneg d (by norm_num)
  have h2 : d.emod 4294967296 < 4294967296 := Int.emod_lt_of_pos d (by norm_num)
  omega

theorem mod_disp32_shrink_sum (op : Nat) (r b : Nat) (d : Int)
    (hr : r < 16) (hb : b < 16) (hb4 : b % 8 ≠ 4) (hop : op < 4294967296)
    (hmod : (op >>> 24) % 256 = 128) (h8 : isS8int d = true) :
    mod_disp32 op r b d =
      some (2 ^ 24 * (2 ^ 32 * toU8int d +
        (2 ^ 24 * (64 + 8 * (r % 8) + (b % 8)) + op % 16777216)) +
        (oplen op - 3)) := by
  have hr8 : r % 8 < 8 := Nat.mod_lt _ (by norm_num)
  have hb8 : b % 8 < 8 := Nat.mod_lt _ (by norm_num)
  have hlo : op % 16777216 < 16777216 := Nat.mod_lt _ (by norm_num)
  have hop2 : (op &&& 18446744069431361535) |||
      ((64 ||| ((r % 8) <<< 3) ||| (b % 8)) <<< 24) =
      2 ^ 24 * (64 + 8 * (r % 8) + (b % 8)) + op % 16777216 := by
    rw [land_maskC op hop, modrm_sum64, Nat.lor_comm, Nat.shiftLeft_eq,
      Nat.mul_comm (64 + 8 * (r % 8) + (b % 8)) (2 ^ 24)]
    exact (Nat.mul_add_lt_is_or
      (show op % 16777216 < 2 ^ 24 by omega) _).symm
  have hop2lt : 2 ^ 24 * (64 + 8 * (r % 8) + (b % 8)) + op % 16777216 <
      2 ^ 32 := by
    omega
  simp only [mod_disp32]
  rw [if_neg (not_not_intro ⟨hr, hb⟩), if_neg hb4, hmod]
  rw [if_pos ⟨by decide, h8⟩]
  congr 1
  rw [hop2]
  set A : Nat := 2 ^ 24 * (64 + 8 * (r % 8) + (b % 8)) + op % 16777216
  have hAmod : A <<< 24 % W64 = A <<< 24 := by
    apply Nat.mod_eq_of_lt
    rw [Nat.shiftLeft_eq, W64_eq]
    calc A * 2 ^ 24 < 2 ^ 32 * 2 ^ 24 :=
      Nat.mul_lt_mul_of_lt_of_le hop2lt (Nat.le_refl _) (by norm_num)
    _ ≤ 2 ^ 64 := by norm_num
  rw [hAmod]
  have hshift : A <<< 24 = 2 ^ 24 * A + 0 := by
    rw [Nat.shiftLeft_eq, Nat.mul_comm, Nat.add_zero]
  have hu8 : toU8int d <<< 56 = 2 ^ 24 * (2 ^ 32 * toU8int d) := by
    rw [Nat.shiftLeft_eq, Nat.mul_comm]
    ring
  rw [hshift, hu8, lor_mul_pow_add 24 A 0 (2 ^ 32 * toU8int d)
    (by norm_num)]
  rw [Nat.lor_comm A, Nat.mul_add_lt_is_or hop2lt (toU8int d) |>.symm]
  rw [Nat.add_zero]
  have hlen : oplen op - 3 < 2 ^ 24 := by
    have : oplen op < 256 := Nat.mod_lt _ (by norm_num)
    omega
  rw [lor_add_of_mod_eq_zero (i := 24)
    (by rw [Nat.mul_comm]; exact Nat.mul_mod_left _ _) hlen]

theorem mod_disp32_wide_sum (op : Nat) (r b : Nat) (d : Int)
    (hr : r < 16) (hb : b < 16) (hb4 : b % 8 ≠ 4) (hop : op < 4294967296)
    (hmod : (op >>> 24) % 256 = 128) (h8 : isS8int d = false) :
    mod_disp32 op r b d =
      some (2 ^ 24 * (2 ^ 8 * toU32int d + 128 +
        (8 * (r % 8) + (b % 8))) + op % 16777216) := by
  have hr8 : r % 8 < 8 := Nat.mod_lt _ (by norm_num)
  have hb8 : b % 8 < 8 := Nat.mod_lt _ (by norm_num)
  have hlo : op % 16777216 < 2 ^ 24 := by
    have := Nat.mod_lt op (y := 16777216) (by norm_num)
    omega
  have hopsplit : op = 2 ^ 24 * 128 + op % 16777216 := by
    rw [Nat.shiftRight_eq_div_pow] at hmod
    norm_num at hmod ⊢
    omega
  simp only [mod_disp32]
  rw [if_neg (not_not_intro ⟨hr, hb⟩), if_neg hb4, hmod]
  rw [if_neg (by simp [h8])]
  congr 1
  rw [modrm_sum0]
  have hD : toU32int d <<< 32 = 2 ^ 24 * (2 ^ 8 * toU32int d) := by
    rw [Nat.shiftLeft_eq, Nat.mul_comm]
    ring
  have hm2 : (8 * (r % 8) + (b % 8)) <<< 24 = 2 ^ 24 * (8 * (r % 8) + (b % 8)) := by
    rw [Nat.shiftLeft_eq, Nat.mul_comm]
  conv_lhs => rw [hopsplit, hD, hm2]
  rw [lor_mul_pow_add 24 128 (op % 16777216) (2 ^ 8 * toU32int d) hlo]
  rw [Nat.lor_comm (128 : Nat),
    (Nat.mul_add_lt_is_or (by norm_num : (128 : Nat) < 2 ^ 8)
      (toU32int d)).symm]
  rw [lor_mul_pow_add 24 (2 ^ 8 * toU32int d + 128) (op % 16777216)
    (8 * (r % 8) + (b % 8)) hlo]
  have hsplit7 : 2 ^ 8 * toU32int d + 128 = 2 ^ 7 * (2 * toU32int d + 1) := by
    ring
  rw [hsplit7, (Nat.mul_add_lt_is_or
    (show 8 * (r % 8) + (b % 8) < 2 ^ 7 by omega) (2 * toU32int d + 1)).symm]

/-! ### C9 claim theorems -/

/-- C9 counterexample.  The claim states that `mod_disp32` asserts that
the base register is not RBP/R13 in mode 00.  On the code, the only
asserts are `IsGpReg(r) && IsGpReg(b)` and `(REGNUM(b) & 7) != 4`: with
the mode-00 template `op = 0` and base `RBP` no assertion fires and an
encoding is returned. -/
theorem c9_mod_disp32_counterexample :
    (((0 : Nat) >>> 24) % 256) >>> 6 = 0 ∧ RBP % 8 = 5 ∧
    mod_disp32 0 RAX RBP 0 ≠ none :=
  ⟨by decide, by decide, by decide⟩

/-- C9 (amended).  `mod_disp32` asserts exactly that both registers are
GP registers and that the base is not congruent to RSP/R12 mod 8; it has
no assert about RBP/R13 with a mode-00 template.  For a mode-2 template
with ModRM byte `0x80`: when the displacement fits a signed byte the
result's length field drops by 3, the ModRM byte in bits 48..55 is
`0x40 | (r&7)<<3 | (b&7)` (mode 01) and bits 56..63 hold the 8-bit
displacement; otherwise the length field is unchanged, the ModRM byte in
bits 24..31 is `0x80 | (r&7)<<3 | (b&7)` and bits 32..63 hold the full
32-bit displacement. -/
theorem c9_mod_disp32_amended :
    (∀ (op r b : Nat) (d : Int),
        mod_disp32 op r b d = none ↔ ¬(r < 16 ∧ b < 16) ∨ b % 8 = 4) ∧
    (∀ (op r b : Nat) (d : Int), r < 16 → b < 16 → b % 8 ≠ 4 →
        op < 4294967296 → (op >>> 24) % 256 = 128 → isS8int d = true →
        ∃ res, mod_disp32 op r b d = some res ∧
          oplen res = oplen op - 3 ∧
          (res >>> 48) % 256 = 64 + 8 * (r % 8) + (b % 8) ∧
          res >>> 56 = toU8int d) ∧
    (∀ (op r b : Nat) (d : Int), r < 16 → b < 16 → b % 8 ≠ 4 →
        op < 4294967296 → (op >>> 24) % 256 = 128 → isS8int d = false →
        ∃ res, mod_disp32 op r b d = some res ∧
          oplen res = oplen op ∧
          (res >>> 24) % 256 = 128 + (8 * (r % 8) + (b % 8)) ∧
          (res >>> 32) % 4294967296 = toU32int d) := by
  refine ⟨?_, ?_, ?_⟩
  · intro op r b d
    simp only [mod_disp32]
    split_ifs with h1 h2 h3 <;> simp_all
  · intro op r b d hr hb hb4 hop hmod h8
    have hu := toU8int_lt d
    refine ⟨_, mod_disp32_shrink_sum op r b d hr hb hb4 hop hmod h8,
      ?_, ?_, ?_⟩
    · simp only [oplen]
      omega
    · rw [Nat.shiftRight_eq_div_pow]
      have hsplit : 2 ^ 24 * (2 ^ 32 * toU8int d +
          (2 ^ 24 * (64 + 8 * (r % 8) + (b % 8)) + op % 16777216)) +
          (oplen op - 3) =
          2 ^ 48 * (2 ^ 8 * toU8int d + (64 + 8 * (r % 8) + (b % 8))) +
          (2 ^ 24 * (op % 16777216) + (oplen op - 3)) := by
        ring
      rw [hsplit, Nat.mul_add_div (by norm_num),
        Nat.div_eq_of_lt (by simp only [oplen]; omega), Nat.add_zero]
      omega
    · rw [Nat.shiftRight_eq_div_pow]
      have hsplit : 2 ^ 24 * (2 ^ 32 * toU8int d +
          (2 ^ 24 * (64 + 8 * (r % 8) + (b % 8)) + op % 16777216)) +
          (oplen op - 3) =
          2 ^ 56 * toU8int d +
          (2 ^ 48 * (64 + 8 * (r % 8) + (b % 8)) +
            (2 ^ 24 * (op % 16777216) + (oplen op - 3))) := by
        ring
      rw [hsplit, Nat.mul_add_div (by norm_num),
        Nat.div_eq_of_lt (by simp only [oplen]; omega), Nat.add_zero]
  · intro op r b d hr hb hb4 hop hmod h8
    have hu := toU32int_lt d
    refine ⟨_, mod_disp32_wide_sum op r b d hr hb hb4 hop hmod h8,
      ?_, ?_, ?_⟩
    · simp only [oplen]
      omega
    · rw [Nat.shiftRight_eq_div_pow]
      have hsplit : 2 ^ 24 * (2 ^ 8 * toU32int d + 128 +
          (8 * (r % 8) + (b % 8))) + op % 16777216 =
          2 ^ 24 * (2 ^ 8 * toU32int d + 128 + (8 * (r % 8) + (b % 8))) +
          op % 16777216 := rfl
      rw [hsplit, Nat.mul_add_div (by norm_num),
        Nat.div_eq_of_lt (by omega), Nat.add_zero]
      omega
    · rw [Nat.shiftRight_eq_div_pow]
      have hsplit : 2 ^ 24 * (2 ^ 8 * toU32int d + 128 +
          (8 * (r % 8) + (b % 8))) + op % 16777216 =
          2 ^ 32 * toU32int d +
          (2 ^ 24 * (128 + (8 * (r % 8) + (b % 8))) + op % 16777216) := by
        ring
      rw [hsplit, Nat.mul_add_div (by norm_num),
        Nat.div_eq_of_lt (by omega), Nat.add_zero]
      exact Nat.mod_eq_of_lt hu

theorem c9_mod_disp32_amended_witness :
    (mod_disp32 3 2 4 5 = none ↔
      ¬((2 : Nat) < 16 ∧ (4 : Nat) < 16) ∨ (4 : Nat) % 8 = 4) ∧
    (∃ res, mod_disp32 2147483652 1 5 7 = some res ∧
      oplen res = oplen 2147483652 - 3 ∧
      (res >>> 48) % 256 = 64 + 8 * (1 % 8) + (5 % 8) ∧
      res >>> 56 = toU8int 7) ∧
    (∃ res, mod_disp32 2147483652 1 5 1000 = some res ∧
      oplen res = oplen 2147483652 ∧
      (res >>> 24) % 256 = 128 + (8 * (1 % 8) + (5 % 8)) ∧
      (res >>> 32) % 4294967296 = toU32int 1000) :=
  ⟨c9_mod_disp32_amended.1 3 2 4 5,
   c9_mod_disp32_amended.2.1 2147483652 1 5 7 (by decide) (by decide)
     (by decide) (by decide) (by decide) (by decide),
   c9_mod_disp32_amended.2.2 2147483652 1 5 1000 (by decide) (by decide)
     (by decide) (by decide) (by decide) (by decide)⟩

end NX64
